import Mathlib

/-!
# Verification of the sops-fs tree-mapping engine

A shallow embedding of the core of the `vscode-sops-fs` extension
(`src/sopsfs.ts`, `src/sopsfs-provider.ts`): the per-document engine that
projects a SOPS-encrypted structured document as a virtual filesystem.

Modelling conventions:
* Byte sequences (`Buffer`/`Uint8Array` contents) are modelled as `String`;
  `Buffer.from(s)` / `buf.toString()` are the identity under this convention,
  and `byteLength` is `String.utf8ByteSize`.
* JavaScript numbers inside parsed JSON trees are modelled by their string
  form (`Json.num r`); `Number.prototype.toString` is then the identity.
  Double rounding for integers at or above 2^53 is not modelled.
* The external `sops` executable is a black box; it is modelled as a record
  of partial functions (`SopsTool`) acting on file contents, `none` meaning
  the invocation failed.  The in-place `--set` mutation of a file is a pure
  function from old to new content.  The benign "file has not been modified"
  exit status of the editor invocation is absorbed into a successful result.
* `vscode.workspace.fs.copy` (used by `applySopsChange` to overwrite the
  stable document with the finished temporary file) is modelled as an
  infallible assignment, so an operation that returns an error never reached
  the final overwrite.
* The lazy `FileSystemWatcher` registration in `getTreeNode` and the
  `Disposable` plumbing are not modelled: they only react to external edits
  of the stable document.
* `object-path`'s exotic own-property lookups (character indexing into
  strings, the `length` own-property of arrays) are not modelled; lookup
  descends only through objects and arrays.
-/

/-- JSON values as produced by `JSON.parse` of the decrypted document.
Objects are association lists in insertion order with unique keys. -/
inductive Json where
  | null : Json
  | bool (b : Bool) : Json
  | num (r : String) : Json
  | str (s : String) : Json
  | arr (elems : List Json) : Json
  | obj (fields : List (String × Json)) : Json

/-- `vscode.FileType`, restricted to the two kinds the engine produces. -/
inductive FileType where
  | file : FileType
  | directory : FileType
deriving DecidableEq, Repr

/-- `vscode.FileChangeType`. -/
inductive FileChangeType where
  | changed : FileChangeType
  | created : FileChangeType
  | deleted : FileChangeType
deriving DecidableEq, Repr

/-- The error conditions the engine can raise: the `vscode.FileSystemError`
codes it throws, plus the plain JavaScript exceptions that can escape
(`Error` from `pathToSopsSetPath` and `deleteMarker`, the `TypeError` from
calling `toString` on `null`, and failures of the external tool). -/
inductive FsError where
  | fileNotFound : FsError
  | fileExists : FsError
  | fileNotADirectory : FsError
  | fileIsADirectory : FsError
  | noPermissions (msg : String) : FsError
  | invalidArrayIndex (key : String) : FsError
  | nullToString : FsError
  | jsError (msg : String) : FsError
  | toolError : FsError
deriving DecidableEq, Repr

/-- The `SopsFormat` enum of `sopsfs.ts`. -/
inductive SopsFormat where
  | json : SopsFormat
  | yaml : SopsFormat
  | ini : SopsFormat
  | env : SopsFormat
  | binary : SopsFormat
deriving DecidableEq, Repr

/-- The `DELETED_MARKER` sentinel of `sopsfs.ts`. -/
def DELETED_MARKER : String :=
  "vscode-sops-fs__deleted__ba2bfdb5-b5c2-460c-a1cd-4e257b05ebee"

/-- `treeValueToType` of `sopsfs.ts`: `typeof value === "object" && value`
is true exactly for (non-null) objects and arrays; `null` is falsy and is
classified as a file. -/
def treeValueToType : Json → FileType
  | .arr _ => .directory
  | .obj _ => .directory
  | _ => .file

/-- The string a leaf value yields under `val.toString()`; `none` models the
`TypeError` raised when the value is `null`.  Directories never reach this
call site, so the result on `arr`/`obj` is irrelevant (JavaScript would
produce a joined/`[object Object]` form). -/
def jsToString : Json → Option String
  | .null => none
  | .bool true => some "true"
  | .bool false => some "false"
  | .num r => some r
  | .str s => some s
  | .arr _ => some ""
  | .obj _ => some ""

/-- The value of a non-empty all-digit string (`Number.parseInt` restricted
to the inputs that can survive the canonical-form comparison below: when
`key` contains any non-digit, `parseInt` yields either `NaN` or a number
whose decimal rendering differs from `key`, so the comparison fails either
way). -/
def parseAllDigits (s : List Char) : Option Nat :=
  if s.isEmpty then none
  else if s.all Char.isDigit then
    some (s.foldl (fun n c => n * 10 + (c.toNat - 48)) 0)
  else none

/-- The canonical-array-index test shared by `object-path`'s `getKey` and
the guard in `pathToSopsSetPath`: `Number.parseInt(key)` must be a
non-negative integer whose decimal rendering equals `key`.  Strings such as
`"01"`, `"-1"`, `"1.0"`, `" 1"`, `"+1"`, `"0x10"` or `""` all fail. -/
def canonIndex (key : String) : Option Nat :=
  match parseAllDigits key.data with
  | some n => if Nat.repr n = key then some n else none
  | none => none

/-- `object-path`'s `get(obj, path)` as used by the engine: descend through
objects by key and through arrays by canonical index; any other descent
yields `undefined` (`none`). -/
def objGet : Json → List String → Option Json
  | v, [] => some v
  | .obj fields, k :: rest =>
    match fields.find? (fun p => p.1 = k) with
    | some p => objGet p.2 rest
    | none => none
  | .arr elems, k :: rest =>
    match canonIndex k with
    | some n =>
      match elems.get? n with
      | some v => objGet v rest
      | none => none
    | none => none
  | _, _ :: _ => none

/-- `Object.entries` on a directory-classified value: object fields in
insertion order, array elements under their decimal indices. -/
def jsEntries : Json → List (String × Json)
  | .obj fields => fields
  | .arr elems => (List.range elems.length).zip elems |>.map (fun p => (Nat.repr p.1, p.2))
  | _ => []

/-- `pathToSopsSetPath` of `sopsfs.ts`, as a recursion over the remaining
segments; `pre` is the already-processed prefix (the source loop uses
`path.slice(0, i)`).  Each step inspects the already-resolved parent value:
under an array parent the segment must be a canonical index and is rendered
as a bracketed number, otherwise it is rendered as a bracketed quoted key. -/
def pathToSopsSetPathGo (object : Json) (pre : List String) : List String → Except FsError (List String)
  | [] => .ok []
  | key :: rest =>
    let parent := objGet object pre
    match parent with
    | some (.arr _) =>
      match canonIndex key with
      | some idx =>
        match pathToSopsSetPathGo object (pre ++ [key]) rest with
        | .ok tl => .ok (("[" ++ Nat.repr idx ++ "]") :: tl)
        | .error e => .error e
      | none => .error (.invalidArrayIndex key)
    | _ =>
      match pathToSopsSetPathGo object (pre ++ [key]) rest with
      | .ok tl => .ok (("[\"" ++ key ++ "\"]") :: tl)
      | .error e => .error e

/-- `pathToSopsSetPath` of `sopsfs.ts`. -/
def pathToSopsSetPath (path : List String) (object : Json) : Except FsError String :=
  match pathToSopsSetPathGo object [] path with
  | .ok parts => .ok (String.join parts)
  | .error e => .error e

/-- The characters matched by the JavaScript regex class `\s`. -/
def isJsWs (c : Char) : Bool :=
  c = ' ' || c = '\t' || c = '\n' || c.toNat = 11 || c.toNat = 12 || c.toNat = 13 ||
  c.toNat = 0xa0 || c.toNat = 0x1680 ||
  (0x2000 ≤ c.toNat && c.toNat ≤ 0x200a) ||
  c.toNat = 0x2028 || c.toNat = 0x2029 || c.toNat = 0x202f || c.toNat = 0x205f ||
  c.toNat = 0x3000 || c.toNat = 0xfeff

/-- Line terminators, the characters the JavaScript regex `.` does not match. -/
def isLineTerm (c : Char) : Bool :=
  c = '\n' || c.toNat = 13 || c.toNat = 0x2028 || c.toNat = 0x2029

/-- Does `needle` occur as a contiguous subsequence of `haystack`? -/
def containsSeq (needle : List Char) : List Char → Bool
  | [] => needle.isPrefixOf []
  | c :: rest => needle.isPrefixOf (c :: rest) || containsSeq needle rest

/-- Greedily drop a prefix of `\s` characters (the regex piece `[\n\s]*`). -/
def skipWs : List Char → List Char
  | [] => []
  | c :: rest => if isJsWs c then skipWs rest else c :: rest

/-- Match a literal at the head of the input, returning the remainder. -/
def expectLit (lit : List Char) (s : List Char) : Option (List Char) :=
  if lit.isPrefixOf s then some (s.drop lit.length) else none

/-- The sentinel in its quoted form, `"..."`, as it appears in JSON text. -/
def quotedMarker : List Char := '"' :: DELETED_MARKER.data ++ ['"']

/-- The optional key group `([\n\s]*"[^"]+"[\n\s]*:)?` of the JSON deletion
regex: whitespace, a quoted non-empty run of non-quote characters, optional
whitespace, then a colon.  All of its internal quantifiers are forced, so a
single deterministic pass reproduces the backtracking behaviour. -/
def matchKeyGroup (s : List Char) : Option (List Char) :=
  match skipWs s with
  | '"' :: rest =>
    let key := rest.takeWhile (fun c => c ≠ '"')
    let rest2 := rest.drop key.length
    if key.isEmpty then none
    else
      match rest2 with
      | '"' :: rest3 =>
        match skipWs rest3 with
        | ':' :: rest4 => some rest4
        | _ => none
      | _ => none
  | _ => none

/-- The tail `[\n\s]*(,)?` of the JSON deletion regex: greedy whitespace,
then a captured comma when present.  Returns whether the comma capture
participated, and the remainder. -/
def matchTail (s : List Char) : Bool × List Char :=
  match skipWs s with
  | ',' :: rest => (true, rest)
  | s1 => (false, s1)

/-- The JSON deletion regex after the optional leading comma:
`([\n\s]*"[^"]+"[\n\s]*:)?[\n\s]*"MARKER"[\n\s]*(,)?`.  The greedy optional
key group is preferred; if the marker literal does not follow it, the engine
backtracks to the keyless alternative. -/
def matchAfterComma (s : List Char) : Option (Bool × List Char) :=
  let viaKey : Option (List Char) :=
    match matchKeyGroup s with
    | some r => expectLit quotedMarker (skipWs r)
    | none => none
  match viaKey with
  | some r => some (matchTail r)
  | none =>
    match expectLit quotedMarker (skipWs s) with
    | some r => some (matchTail r)
    | none => none

/-- One attempted match of the full JSON deletion regex
`(,)?([\n\s]*"[^"]+"[\n\s]*:)?[\n\s]*"MARKER"[\n\s]*(,)?` at the head of the
input.  Returns `(c1 captured, c2 captured, remainder)`.  When the input
starts with a comma only the comma-consuming alternative can succeed
(without it the pattern would immediately require whitespace or a quote). -/
def matchAt : List Char → Option (Bool × Bool × List Char)
  | ',' :: rest =>
    match matchAfterComma rest with
    | some (c2, r) => some (true, c2, r)
    | none => none
  | s =>
    match matchAfterComma s with
    | some (c2, r) => some (false, c2, r)
    | none => none

/-- Global replacement pass of the JSON deletion regex, scanning left to
right and resuming after each match; a match with both commas captured is
replaced by a single comma, any other match by the empty string
(the replacer callback in `deleteMarker`). -/
def jsonStripGo (fuel : Nat) (s : List Char) : List Char :=
  match fuel with
  | 0 => s
  | fuel + 1 =>
    match matchAt s with
    | some (c1, c2, rest) =>
      (if c1 && c2 then [','] else []) ++ jsonStripGo fuel rest
    | none =>
      match s with
      | [] => []
      | c :: rest => c :: jsonStripGo fuel rest

/-- Global replacement pass of the line deletion regex `.*MARKER.*\n?`:
each maximal run of non-line-terminator characters containing the sentinel
is removed together with a following `\n` (but not a bare `\r`/U+2028/U+2029,
which `\n?` does not consume). -/
def lineStripGo (fuel : Nat) (s : List Char) : List Char :=
  match fuel with
  | 0 => s
  | fuel + 1 =>
    match s with
    | [] => []
    | _ =>
      let seg := s.takeWhile (fun c => !isLineTerm c)
      let rest := s.drop seg.length
      if containsSeq DELETED_MARKER.data seg then
        match rest with
        | '\n' :: rest2 => lineStripGo fuel rest2
        | [] => []
        | t :: rest2 => t :: lineStripGo fuel rest2
      else
        match rest with
        | [] => seg
        | t :: rest2 => seg ++ t :: lineStripGo fuel rest2

/-- `deleteMarker` of `sopsfs.ts`: the format-aware textual strip of the
sentinel, raising a plain `Error` on the binary format. -/
def deleteMarker (format : SopsFormat) (content : String) : Except FsError String :=
  match format with
  | .binary => .error (.jsError "deleteMarker: unhandled format")
  | .json => .ok (String.mk (jsonStripGo content.data.length content.data))
  | _ => .ok (String.mk (lineStripGo content.data.length content.data))

/-- Node's `path.basename(p, ext)`: strip trailing separators, take the part
after the last `/`, and strip `ext` when it is a proper suffix (Node keeps
the name intact when it equals `ext`). -/
def jsBasename (p : String) (ext : String) : String :=
  let t := (p.data.reverse.dropWhile (fun c => c = '/')).reverse
  let base := (t.reverse.takeWhile (fun c => c ≠ '/')).reverse
  let base :=
    if ext ≠ "" && base ≠ ext.data && ext.data.isSuffixOf base then
      base.take (base.length - ext.data.length)
    else base
  String.mk base

/-- Node's `path.extname(p)`: the part of the basename from its last dot;
empty when there is no dot, when the only dot leads a dotfile, or for
`".."`. -/
def jsExtname (p : String) : String :=
  let base := (jsBasename p "").data
  let revTail := base.reverse.takeWhile (fun c => c ≠ '.')
  if revTail.length = base.length then ""
  else if revTail.length + 1 = base.length then ""
  else if base = ['.', '.'] then ""
  else String.mk ('.' :: revTail.reverse)

/-- `pathToFormat` of `sopsfs.ts`: detect the document format from the
filename extension. -/
def pathToFormat (p : String) : SopsFormat :=
  let ext := jsExtname p
  if ext = ".json" then .json
  else if ext = ".yaml" then .yaml
  else if ext = ".yml" then .yaml
  else if ext = ".ini" then .ini
  else if ext = ".env" then .env
  else .binary

/-- The per-document configuration of a `SopsFs` instance: the path of the
stable encrypted document (`sopsUri.path`).  The tool command and
environment are irrelevant to the modelled semantics and live in
`SopsTool`. -/
structure SopsCfg where
  sopsPath : String

/-- `this.sopsFormat`, computed in the constructor. -/
def SopsCfg.sopsFormat (cfg : SopsCfg) : SopsFormat :=
  pathToFormat cfg.sopsPath

/-- `this.dataFilename`, computed in the constructor: the reserved name of
the synthetic raw-data entry. -/
def SopsCfg.dataFilename (cfg : SopsCfg) : String :=
  "__sopsfs__" ++ jsExtname (jsBasename cfg.sopsPath ".sops")

/-- `SopsFs.isDataFile`. -/
def SopsCfg.isDataFile (cfg : SopsCfg) (path : List String) : Bool :=
  match path with
  | [k] => (cfg.dataFilename != "") && (cfg.dataFilename == k)
  | _ => false

/-- The stat metadata of the stable encrypted document
(`vscode.workspace.fs.stat(sopsUri)`). -/
structure RawStat where
  ctime : Nat
  mtime : Nat
  size : Nat
deriving DecidableEq, Repr

/-- The cached triple `[stat, rawOut, jsonOut]` of `getTree`: external stat,
decrypted raw bytes, and the parsed tree (`none` for the binary format). -/
structure Snapshot where
  stat : RawStat
  raw : String
  tree : Option Json

/-- The external encryption tool, a black box invoked on file contents.
`decrypt` is `sops --decrypt`, `decryptJson` is
`sops --output-type json --decrypt` composed with `JSON.parse`, `set` is
`sops --set` (mutating the file in place; modelled as old content to new
content, receiving the tree address and value the rendered expression
denotes), and `write` is the editor invocation that re-encrypts supplied
plaintext into the document.  `none` models an invocation failure. -/
structure SopsTool where
  decrypt : String → Option String
  decryptJson : String → Option Json
  set : String → List String → Json → Option String
  write : String → String → Option String

/-- `vscode.FileStat` as the engine builds it. -/
structure FileStat where
  type : FileType
  ctime : Nat
  mtime : Nat
  size : Nat
deriving DecidableEq, Repr

/-- `TreeNode` of `sopsfs.ts`. -/
inductive TreeNode where
  | file (stat : FileStat) (value : String) : TreeNode
  | dir (stat : FileStat) (entries : List (String × FileType)) : TreeNode

/-- The stat carried by a node. -/
def TreeNode.stat : TreeNode → FileStat
  | .file s _ => s
  | .dir s _ => s

/-- A buffered `vscode.FileChangeEvent`; the uri is represented by its
path. -/
structure FileChangeEvent where
  path : String
  type : FileChangeType
deriving DecidableEq, Repr

/-- JavaScript `Array.prototype.join("/")` on path segments. -/
def joinSlash : List (List Char) → List Char
  | [] => []
  | [x] => x
  | x :: xs => x ++ '/' :: joinSlash xs

/-- The uri path `"/" + path.join("/")` used by `addChangeEvent`. -/
def evPath (path : List String) : String :=
  String.mk ('/' :: joinSlash (path.map String.data))

/-- The mutable state of one `SopsFs` instance together with the stable
document it manages: the stable document's bytes and stat, the cached
snapshot (`cachedTree`), the buffered change events (`fileChanges`), and
whether a throttled flush is pending (`emitChanged` has been invoked but
its trailing-edge timer has not fired). -/
structure FsState where
  stable : String
  stableStat : RawStat
  cache : Option Snapshot
  fileChanges : List FileChangeEvent
  pendingFlush : Bool

namespace SopsFs

/-- `getTree`: return the cached snapshot, or stat and decrypt the stable
document (through a private temporary copy of its bytes) and cache the
result.  For non-binary formats the structured decryption must also
succeed; all failures propagate without filling the cache. -/
def getTree (cfg : SopsCfg) (tool : SopsTool) (st : FsState) :
    Except FsError Snapshot × FsState :=
  match st.cache with
  | some c => (.ok c, st)
  | none =>
    match tool.decrypt st.stable with
    | none => (.error .toolError, st)
    | some rawOut =>
      if cfg.sopsFormat = .binary then
        let snap : Snapshot := ⟨st.stableStat, rawOut, none⟩
        (.ok snap, { st with cache := some snap })
      else
        match tool.decryptJson st.stable with
        | none => (.error .toolError, st)
        | some j =>
          let snap : Snapshot := ⟨st.stableStat, rawOut, some j⟩
          (.ok snap, { st with cache := some snap })

/-- The resolution step of `getTreeNode` before the root special case:
either the synthetic raw-data entry, or a lookup in the parsed tree.
Returns `(type, value, entries)` as the source's three locals. -/
def resolveNode (cfg : SopsCfg) (snap : Snapshot) (path : List String) :
    Except FsError (Option FileType × Option String × List (String × FileType)) :=
  if cfg.isDataFile path then
    .ok (some .file, some snap.raw, [])
  else
    match snap.tree with
    | some tree =>
      match objGet tree path with
      | none => .error .fileNotFound
      | some val =>
        match treeValueToType val with
        | .directory =>
          .ok (some .directory, none,
            (jsEntries val).map (fun p => (p.1, treeValueToType p.2)))
        | .file =>
          match jsToString val with
          | none => .error .nullToString
          | some s => .ok (some .file, some s, [])
    | none => .ok (none, none, [])

/-- The pure part of `getTreeNode`, acting on a snapshot: resolve the path,
then apply the root special case (the root is always a directory whose
listing is prefixed with the synthetic raw-data entry) and build the node
with stats inherited from the stable document. -/
def getTreeNodeCore (cfg : SopsCfg) (snap : Snapshot) (path : List String) :
    Except FsError TreeNode :=
  match resolveNode cfg snap path with
  | .error e => .error e
  | .ok (type0, value, entries0) =>
    if path.isEmpty && (cfg.dataFilename != "") then
      match type0 with
      | some .file => .error (.jsError "unreachable")
      | _ =>
        let entries := (cfg.dataFilename, FileType.file) :: entries0
        .ok (.dir ⟨.directory, snap.stat.ctime, snap.stat.mtime, entries.length⟩ entries)
    else
      match type0 with
      | some .directory =>
        .ok (.dir ⟨.directory, snap.stat.ctime, snap.stat.mtime, entries0.length⟩ entries0)
      | some .file =>
        match value with
        | some v => .ok (.file ⟨.file, snap.stat.ctime, snap.stat.mtime, v.utf8ByteSize⟩ v)
        | none => .error .fileNotFound
      | none => .error .fileNotFound

/-- `getTreeNode`: load (or reuse) the snapshot, then resolve the node.
The lazy file-watcher registration of the source is not modelled. -/
def getTreeNode (cfg : SopsCfg) (tool : SopsTool) (path : List String) (st : FsState) :
    Except FsError TreeNode × FsState :=
  match getTree cfg tool st with
  | (.error e, st1) => (.error e, st1)
  | (.ok snap, st1) => (getTreeNodeCore cfg snap path, st1)

/-- `addChangeEvent`: buffer one change event. -/
def addChangeEvent (path : List String) (t : FileChangeType) (st : FsState) : FsState :=
  { st with fileChanges := st.fileChanges ++ [⟨evPath path, t⟩] }

/-- `invalidateTreeCache`: drop the cached snapshot and schedule a throttled
trailing-edge flush of the buffered events. -/
def invalidateTreeCache (st : FsState) : FsState :=
  { st with cache := none, pendingFlush := true }

/-- `applySopsChange`: overwrite the stable document with the finished
temporary copy, then invalidate the cache.  The copy is modelled as an
infallible assignment. -/
def applySopsChange (sopsTemp : String) (st : FsState) : FsState :=
  invalidateTreeCache { st with stable := sopsTemp }

/-- The body of the throttled `emitChanged` callback: when no specific
events are buffered, buffer a root-level `Changed` event; then buffer a
`Changed` event for the synthetic raw-data entry; finally fire the whole
buffer as one batch and clear it. -/
def flushChanges (cfg : SopsCfg) (st : FsState) : List FileChangeEvent × FsState :=
  let st1 := if st.fileChanges.isEmpty then addChangeEvent [] .changed st else st
  let st2 := if cfg.dataFilename != "" then addChangeEvent [cfg.dataFilename] .changed st1 else st1
  (st2.fileChanges, { st2 with fileChanges := [], pendingFlush := false })

/-- `sopsCmdSet`: refuse on the binary format, load the tree, translate the
address (propagating the invalid-array-index error), then invoke the tool's
set mutation on the temporary file's content. -/
def sopsCmdSet (cfg : SopsCfg) (tool : SopsTool) (sopsFile : String)
    (path : List String) (value : Json) (st : FsState) :
    Except FsError String × FsState :=
  if cfg.sopsFormat = .binary then
    (.error (.noPermissions "Set value on binary file is invalid"), st)
  else
    match getTree cfg tool st with
    | (.error e, st1) => (.error e, st1)
    | (.ok snap, st1) =>
      let treeObj := match snap.tree with | some t => t | none => Json.obj []
      match pathToSopsSetPath path treeObj with
      | .error e => (.error e, st1)
      | .ok _ =>
        match tool.set sopsFile path value with
        | none => (.error .toolError, st1)
        | some newContent => (.ok newContent, st1)

/-- `stat(uri)`. -/
def stat (cfg : SopsCfg) (tool : SopsTool) (path : List String) (st : FsState) :
    Except FsError FileStat × FsState :=
  match getTreeNode cfg tool path st with
  | (.error e, st1) => (.error e, st1)
  | (.ok node, st1) => (.ok node.stat, st1)

/-- `readDirectory(uri)`. -/
def readDirectory (cfg : SopsCfg) (tool : SopsTool) (path : List String) (st : FsState) :
    Except FsError (List (String × FileType)) × FsState :=
  match getTreeNode cfg tool path st with
  | (.error e, st1) => (.error e, st1)
  | (.ok (.file _ _), st1) => (.error .fileNotADirectory, st1)
  | (.ok (.dir _ entries), st1) => (.ok entries, st1)

/-- `readFile(uri)`. -/
def readFile (cfg : SopsCfg) (tool : SopsTool) (path : List String) (st : FsState) :
    Except FsError String × FsState :=
  match getTreeNode cfg tool path st with
  | (.error e, st1) => (.error e, st1)
  | (.ok (.dir _ _), st1) => (.error .fileIsADirectory, st1)
  | (.ok (.file _ v), st1) => (.ok v, st1)

/-- `createDirectory(uri)`: inside a private temporary copy of the stable
document, set an empty object at the path, then commit. -/
def createDirectory (cfg : SopsCfg) (tool : SopsTool) (path : List String) (st : FsState) :
    Except FsError Unit × FsState :=
  let sopsTemp := st.stable
  match sopsCmdSet cfg tool sopsTemp path (Json.obj []) st with
  | (.error e, st1) => (.error e, st1)
  | (.ok temp1, st1) => (.ok (), applySopsChange temp1 st1)

/-- `writeFile(uri, content, options)`: resolve the parent and the node
(each failure swallowed), apply the create/overwrite pre-checks, then
inside a private temporary copy either re-encrypt the whole stream (for the
synthetic raw-data entry) or set the payload's text at the path, buffer the
change event, and commit. -/
def writeFile (cfg : SopsCfg) (tool : SopsTool) (path : List String)
    (content : String) (create overwrite : Bool) (st : FsState) :
    Except FsError Unit × FsState :=
  let pr :=
    match getTreeNode cfg tool path.dropLast st with
    | (.ok n, s) => (some n, s)
    | (.error _, s) => (none, s)
  let parent := pr.1
  let st1 := pr.2
  let nr :=
    match parent with
    | some _ =>
      match getTreeNode cfg tool path st1 with
      | (.ok n, s) => (some n, s)
      | (.error _, s) => (none, s)
    | none => (none, st1)
  let node := nr.1
  let st2 := nr.2
  if node.isNone && !create then (.error .fileNotFound, st2)
  else if parent.isNone && create then (.error .fileNotFound, st2)
  else if node.isSome && create && !overwrite then (.error .fileExists, st2)
  else
    let sopsTemp := st2.stable
    let step : Except FsError String × FsState :=
      if cfg.isDataFile path then
        match tool.write sopsTemp content with
        | none => (.error .toolError, st2)
        | some c => (.ok c, st2)
      else
        sopsCmdSet cfg tool sopsTemp path (.str content) st2
    match step with
    | (.error e, st3) => (.error e, st3)
    | (.ok temp1, st3) =>
      let st4 := addChangeEvent path (if node.isSome then .changed else .created) st3
      (.ok (), applySopsChange temp1 st4)

/-- `delete(uri)`: resolve the node, forbid the synthetic raw-data entry,
then inside a private temporary copy run the delete-marker protocol (set
the sentinel, buffer the Deleted event, re-decrypt, strip, re-encrypt) and
commit. -/
def delete (cfg : SopsCfg) (tool : SopsTool) (path : List String) (st : FsState) :
    Except FsError Unit × FsState :=
  match getTreeNode cfg tool path st with
  | (.error e, st1) => (.error e, st1)
  | (.ok _, st1) =>
    if cfg.isDataFile path then
      (.error (.noPermissions "Deletion of data file is forbidden"), st1)
    else
      let sopsTemp := st1.stable
      match sopsCmdSet cfg tool sopsTemp path (.str DELETED_MARKER) st1 with
      | (.error e, st2) => (.error e, st2)
      | (.ok temp1, st2) =>
        let st3 := addChangeEvent path .deleted st2
        match tool.decrypt temp1 with
        | none => (.error .toolError, st3)
        | some raw =>
          match deleteMarker cfg.sopsFormat raw with
          | .error e => (.error e, st3)
          | .ok stripped =>
            match tool.write temp1 stripped with
            | none => (.error .toolError, st3)
            | some temp2 => (.ok (), applySopsChange temp2 st3)

/-- `rename(oldUri, newUri, options)`: load the tree, resolve the old node,
probe the new node (failure swallowed), apply the overwrite pre-check,
forbid the synthetic raw-data entry at either end, then inside one private
temporary copy set the old value at the new path, run the delete-marker
protocol on the old path, buffer both events, and commit once. -/
def rename (cfg : SopsCfg) (tool : SopsTool) (oldPath newPath : List String)
    (overwrite : Bool) (st : FsState) : Except FsError Unit × FsState :=
  match getTree cfg tool st with
  | (.error e, st1) => (.error e, st1)
  | (.ok snap0, st1) =>
    match getTreeNode cfg tool oldPath st1 with
    | (.error e, st2) => (.error e, st2)
    | (.ok _, st2) =>
      let nr :=
        match getTreeNode cfg tool newPath st2 with
        | (.ok n, s) => (some n, s)
        | (.error _, s) => (none, s)
      let newNode := nr.1
      let st3 := nr.2
      if !overwrite && newNode.isSome then (.error .fileExists, st3)
      else if cfg.isDataFile oldPath || cfg.isDataFile newPath then
        (.error (.noPermissions "Renaming of data file is forbidden"), st3)
      else
        match snap0.tree with
        | none => (.error (.jsError "unreachable"), st3)
        | some tree =>
          match objGet tree oldPath with
          | none => (.error (.jsError "unreachable"), st3)
          | some value =>
            let sopsTemp := st3.stable
            match sopsCmdSet cfg tool sopsTemp newPath value st3 with
            | (.error e, st4) => (.error e, st4)
            | (.ok temp1, st4) =>
              match sopsCmdSet cfg tool temp1 oldPath (.str DELETED_MARKER) st4 with
              | (.error e, st5) => (.error e, st5)
              | (.ok temp2, st5) =>
                let st6 := addChangeEvent newPath
                  (if newNode.isSome then .changed else .created)
                  (addChangeEvent oldPath .deleted st5)
                match tool.decrypt temp2 with
                | none => (.error .toolError, st6)
                | some raw =>
                  match deleteMarker cfg.sopsFormat raw with
                  | .error e => (.error e, st6)
                  | .ok stripped =>
                    match tool.write temp2 stripped with
                    | none => (.error .toolError, st6)
                    | some temp3 => (.ok (), applySopsChange temp3 st6)

end SopsFs

/-- The URL-safe base64 alphabet used by Node's `base64url` encoding. -/
def base64urlChar (n : Nat) : Char :=
  if n < 26 then Char.ofNat (65 + n)
  else if n < 52 then Char.ofNat (97 + (n - 26))
  else if n < 62 then Char.ofNat (48 + (n - 52))
  else if n = 62 then '-'
  else '_'

/-- The value of a character of the URL-safe base64 alphabet. -/
def base64urlCharVal (c : Char) : Nat :=
  if 65 ≤ c.toNat && c.toNat ≤ 90 then c.toNat - 65
  else if 97 ≤ c.toNat && c.toNat ≤ 122 then c.toNat - 97 + 26
  else if 48 ≤ c.toNat && c.toNat ≤ 57 then c.toNat - 48 + 52
  else if c = '-' then 62
  else 63

/-- `Buffer.prototype.toString("base64url")`: URL-safe base64 without
padding over a byte sequence. -/
def base64urlEncode : List Nat → List Char
  | [] => []
  | [b1] => [base64urlChar (b1 / 4), base64urlChar (b1 % 4 * 16)]
  | [b1, b2] =>
    [base64urlChar (b1 / 4), base64urlChar (b1 % 4 * 16 + b2 / 16),
     base64urlChar (b2 % 16 * 4)]
  | b1 :: b2 :: b3 :: rest =>
    base64urlChar (b1 / 4) :: base64urlChar (b1 % 4 * 16 + b2 / 16) ::
    base64urlChar (b2 % 16 * 4 + b3 / 64) :: base64urlChar (b3 % 64) ::
    base64urlEncode rest

/-- `Buffer.from(s, "base64url")`: decode, dropping a dangling sextet. -/
def base64urlDecode : List Char → List Nat
  | [] => []
  | [_] => []
  | [c1, c2] => [base64urlCharVal c1 * 4 + base64urlCharVal c2 / 16]
  | [c1, c2, c3] =>
    [base64urlCharVal c1 * 4 + base64urlCharVal c2 / 16,
     base64urlCharVal c2 % 16 * 16 + base64urlCharVal c3 / 4]
  | c1 :: c2 :: c3 :: c4 :: rest =>
    (base64urlCharVal c1 * 4 + base64urlCharVal c2 / 16) ::
    (base64urlCharVal c2 % 16 * 16 + base64urlCharVal c3 / 4) ::
    (base64urlCharVal c3 % 4 * 64 + base64urlCharVal c4) ::
    base64urlDecode rest

/-- JavaScript `String.prototype.split("/")` (accumulator holds the current
segment reversed). -/
def splitOnSlashGo : List Char → List Char → List (List Char)
  | [], acc => [acc.reverse]
  | c :: rest, acc =>
    if c = '/' then acc.reverse :: splitOnSlashGo rest []
    else splitOnSlashGo rest (c :: acc)

namespace SopsFsProvider

/-- `SopsFsProvider.composeUri`: the composed address's path is the
URL-safe base64 (no padding) of the document identity followed by the
optional sub-path.  The identity (`sopsFile.toString()`) is modelled as its
UTF-8 byte sequence. -/
def composeUri (sopsFileBytes : List Nat) (path : Option String) : String :=
  String.mk (base64urlEncode sopsFileBytes) ++
    (match path with
     | some p => p
     | none => "")

/-- `parseUri` of `sopsfs-provider.ts`: split the address's path on `/`,
drop empty segments, decode the first segment as the document identity, and
rebuild the sub-path from the rest. -/
def parseUri (p : String) : Except FsError (List Nat × String) :=
  let paths := (splitOnSlashGo p.data []).filter (fun seg => !seg.isEmpty)
  match paths with
  | [] => .error .fileNotFound
  | uriEncoded :: rest =>
    .ok (base64urlDecode uriEncoded, String.mk ('/' :: joinSlash rest))

end SopsFsProvider

/-- JSON whitespace accepted between tokens by `JSON.parse`. -/
def isJsonWs (c : Char) : Bool :=
  c = ' ' || c = '\t' || c = '\n' || c.toNat = 13

/-- Modelled from the spec: serialisation of a string in the JSON text the
external tool emits (§6, decrypt-to-structured); only the two escapes the
modelled documents need are produced. -/
def jsonEscape (s : String) : String :=
  String.mk (s.data.flatMap (fun c => if c = '"' || c = '\\' then ['\\', c] else [c]))

/-- Comma-joined concatenation. -/
def joinComma : List String → String
  | [] => ""
  | [x] => x
  | x :: xs => x ++ "," ++ joinComma xs

/-- Modelled from the spec: the compact JSON text form of a tree, standing
in for the external tool's structured output (§6).  The fuel bounds the
nesting depth (kept structural so concrete scenarios evaluate). -/
def jsonSerializeGo : Nat → Json → String
  | 0, _ => ""
  | fuel + 1, v =>
    match v with
    | .null => "null"
    | .bool true => "true"
    | .bool false => "false"
    | .num r => r
    | .str s => "\"" ++ jsonEscape s ++ "\""
    | .arr elems => "[" ++ joinComma (elems.map (jsonSerializeGo fuel)) ++ "]"
    | .obj fields =>
      "\x7b" ++
        joinComma (fields.map
          (fun p => "\"" ++ jsonEscape p.1 ++ "\":" ++ jsonSerializeGo fuel p.2)) ++
        "\x7d"

/-- Modelled from the spec: a JSON string body parser (closing quote not
yet consumed), handling the escapes the modelled documents need. -/
def parseJsonStringGo (fuel : Nat) (acc : List Char) : List Char → Option (String × List Char)
  | [] => none
  | c :: rest =>
    match fuel with
    | 0 => none
    | fuel + 1 =>
      if c = '"' then some (String.mk acc.reverse, rest)
      else if c = '\\' then
        match rest with
        | [] => none
        | e :: rest2 =>
          if e = '"' || e = '\\' || e = '/' then parseJsonStringGo fuel (e :: acc) rest2
          else if e = 'n' then parseJsonStringGo fuel ('\n' :: acc) rest2
          else if e = 't' then parseJsonStringGo fuel ('\t' :: acc) rest2
          else if e = 'r' then parseJsonStringGo fuel (Char.ofNat 13 :: acc) rest2
          else none
      else parseJsonStringGo fuel (c :: acc) rest

/-- Characters that may continue a JSON number token. -/
def isJsonNumChar (c : Char) : Bool :=
  c.isDigit || c = '-' || c = '+' || c = '.' || c = 'e' || c = 'E'

mutual

/-- Modelled from the spec: a recursive-descent JSON parser standing in for
`JSON.parse` of the external tool's structured output (§6).  Returns the
value and the unconsumed remainder. -/
def parseJsonValue (fuel : Nat) (s : List Char) : Option (Json × List Char) :=
  match fuel with
  | 0 => none
  | fuel + 1 =>
    match s.dropWhile isJsonWs with
    | [] => none
    | c :: rest =>
      if c = '"' then
        match parseJsonStringGo (rest.length + 1) [] rest with
        | some (str, rest2) => some (.str str, rest2)
        | none => none
      else if c = Char.ofNat 123 then
        parseJsonFields fuel true (c :: rest).tail []
      else if c = '[' then
        parseJsonElems fuel true (c :: rest).tail []
      else if c = 't' then
        if ['r', 'u', 'e'].isPrefixOf rest then some (.bool true, rest.drop 3) else none
      else if c = 'f' then
        if ['a', 'l', 's', 'e'].isPrefixOf rest then some (.bool false, rest.drop 4) else none
      else if c = 'n' then
        if ['u', 'l', 'l'].isPrefixOf rest then some (.null, rest.drop 3) else none
      else if c.isDigit || c = '-' then
        let tok := (c :: rest).takeWhile isJsonNumChar
        some (.num (String.mk tok), (c :: rest).drop tok.length)
      else none

/-- Object-field loop of the parser; `first` marks that no field has been
consumed yet (so a closing brace yields the empty object). -/
def parseJsonFields (fuel : Nat) (first : Bool) (s : List Char)
    (acc : List (String × Json)) : Option (Json × List Char) :=
  match fuel with
  | 0 => none
  | fuel + 1 =>
    match s.dropWhile isJsonWs with
    | [] => none
    | c :: rest =>
      if c = Char.ofNat 125 && first && acc.isEmpty then some (.obj [], rest)
      else
        match (c :: rest).dropWhile isJsonWs with
        | '"' :: rest1 =>
          match parseJsonStringGo (rest1.length + 1) [] rest1 with
          | none => none
          | some (key, rest2) =>
            match rest2.dropWhile isJsonWs with
            | ':' :: rest3 =>
              match parseJsonValue fuel rest3 with
              | none => none
              | some (v, rest4) =>
                match rest4.dropWhile isJsonWs with
                | ',' :: rest5 => parseJsonFields fuel false rest5 (acc ++ [(key, v)])
                | d :: rest5 =>
                  if d = Char.ofNat 125 then some (.obj (acc ++ [(key, v)]), rest5) else none
                | [] => none
            | _ => none
        | _ => none

/-- Array-element loop of the parser. -/
def parseJsonElems (fuel : Nat) (first : Bool) (s : List Char)
    (acc : List Json) : Option (Json × List Char) :=
  match fuel with
  | 0 => none
  | fuel + 1 =>
    match s.dropWhile isJsonWs with
    | [] => none
    | c :: rest =>
      if c = ']' && first && acc.isEmpty then some (.arr [], rest)
      else
        match parseJsonValue fuel (c :: rest) with
        | none => none
        | some (v, rest2) =>
          match rest2.dropWhile isJsonWs with
          | ',' :: rest3 => parseJsonElems fuel false rest3 (acc ++ [v])
          | ']' :: rest3 => some (.arr (acc ++ [v]), rest3)
          | _ => none

end

/-- Modelled from the spec: `JSON.parse` over a whole document. -/
def jsonParse (s : String) : Option Json :=
  match parseJsonValue (s.data.length + 1) s.data with
  | some (v, rest) => if (rest.dropWhile isJsonWs).isEmpty then some v else none
  | none => none

/-- Modelled from the spec: the tool's set-mutation on the parsed tree —
assign a value at one tree address, replacing the addressed slot and
creating intermediate objects where the address leaves the existing tree
(§6, set-mutation). -/
def jsonSet : List String → Json → Json → Json
  | [], _, nv => nv
  | k :: rest, v, nv =>
    match v with
    | .obj fields =>
      if (fields.find? (fun p => p.1 = k)).isSome then
        .obj (fields.map (fun p => if p.1 = k then (p.1, jsonSet rest p.2 nv) else p))
      else
        .obj (fields ++ [(k, jsonSet rest (.obj []) nv)])
    | .arr elems =>
      match canonIndex k with
      | some n =>
        if n < elems.length then
          .arr (elems.take n ++ jsonSet rest (elems.getD n .null) nv :: elems.drop (n + 1))
        else
          .arr (elems ++ [jsonSet rest (.obj []) nv])
      | none => .arr elems
    | _ => .obj [(k, jsonSet rest (.obj []) nv)]

/-- Modelled from the spec: a concrete instantiation of the external
encryption tool (§6) in which the stable document's bytes are the plaintext
JSON text itself — `decrypt` is the identity, `decryptJson` parses the
text, `set` applies the set-mutation structurally and re-serialises, and
the editor invocation stores the supplied plaintext verbatim.  Used to
evaluate the engine on concrete scenarios. -/
def specTool : SopsTool where
  decrypt := fun c => some c
  decryptJson := fun c => jsonParse c
  set := fun c path v =>
    match jsonParse c with
    | some t =>
      some (jsonSerializeGo (c.data.length + path.length + 32) (jsonSet path t v))
    | none => none
  write := fun _ plaintext => some plaintext

/-- A tool whose every invocation fails, for exercising error paths. -/
def failTool : SopsTool where
  decrypt := fun _ => none
  decryptJson := fun _ => none
  set := fun _ _ _ => none
  write := fun _ _ => none

/-- `specTool` with a failing set mutation, for exercising mid-protocol
failures. -/
def setFailTool : SopsTool :=
  { specTool with set := fun _ _ _ => none }

/-- The configuration of the concrete scenario document `secrets.json`. -/
def jsonCfg : SopsCfg := ⟨"/tmp/secrets.json"⟩

/-- The scenario document: the JSON text of the tree
`\x7b"a": \x7b"b": "secret"\x7d\x7d` (under `specTool`, the stable bytes are the
plaintext itself). -/
def scenarioDoc : String := "\x7b\"a\":\x7b\"b\":\"secret\"\x7d\x7d"

/-- Initial state of the scenario: fresh engine, empty cache. -/
def scenarioState : FsState := ⟨scenarioDoc, ⟨1, 2, 30⟩, none, [], false⟩

/-- The state after `delete("/a/b")` in the scenario. -/
def scenarioAfterDelete : FsState :=
  (SopsFs.delete jsonCfg specTool ["a", "b"] scenarioState).2

/-- What a failed mutating call must preserve: the stable document's bytes,
and any previously-cached snapshot. -/
def CachePreserved (st stFinal : FsState) : Prop :=
  stFinal.stable = st.stable ∧ ∀ s, st.cache = some s → stFinal.cache = some s

/-- Does a path resolve to a node in a snapshot? -/
def resolves (cfg : SopsCfg) (snap : Snapshot) (path : List String) : Bool :=
  match SopsFs.getTreeNodeCore cfg snap path with
  | .ok _ => true
  | .error _ => false

/-- Is the already-resolved parent value at `pre` an array? -/
def isArrParent (object : Json) (pre : List String) : Bool :=
  match objGet object pre with
  | some (.arr _) => true
  | _ => false

/-- The rendering of one segment of the tool's set-path expression: a
bracketed numeric index under an array parent, a bracketed quoted key
otherwise. -/
def renderSegment (object : Json) (pre : List String) (key : String) : String :=
  if isArrParent object pre then "[" ++ key ++ "]" else "[\"" ++ key ++ "\"]"

/-- The renderings of the segments of an address, each from its
already-resolved parent. -/
def renderedSegmentsGo (object : Json) (pre : List String) : List String → List String
  | [] => []
  | key :: rest => renderSegment object pre key :: renderedSegmentsGo object (pre ++ [key]) rest

/-- The full rendered set-path expression of an address. -/
def renderedSetPath (object : Json) (path : List String) : String :=
  String.join (renderedSegmentsGo object [] path)

/-- Buffer a sequence of change events (a burst of mutations inside one
coalescing window). -/
def bufferEvents (evs : List (List String × FileChangeType)) (st : FsState) : FsState :=
  evs.foldl (fun s e => SopsFs.addChangeEvent e.1 e.2 s) st

/-- A text document decomposed into lines: each unit is a line's content
(free of line terminators) together with whether it carries a trailing
newline. -/
def flattenUnits (units : List (List Char × Bool)) : List Char :=
  (units.map (fun u => u.1 ++ if u.2 then ['\n'] else [])).flatten

/-- Every unit except possibly the last carries a trailing newline (the
decomposition is then unambiguous: no two units merge into one line). -/
def unitsNL : List (List Char × Bool) → Bool
  | [] => true
  | [_] => true
  | u :: rest => u.2 && unitsNL rest

/-- The sentinel-bearing JSON input of the stripping counterexample: an
empty-string key whose value is the sentinel. -/
def c6BadInput : String := "\x7b\"\":\"" ++ DELETED_MARKER ++ "\"\x7d"

/-- What the stripping pass leaves of `c6BadInput`. -/
def c6BadOutput : String := "\x7b\"\":\x7d"


/-- The mutation phase of `writeFile` after the pre-checks: write the whole
stream for the synthetic raw-data entry or set the payload's text at the
path, buffer the change event (`Changed` when the node already existed),
and commit.  `writeFile` is shown to reduce to this under a cache hit. -/
def writeFileMutate (cfg : SopsCfg) (tool : SopsTool) (path : List String)
    (content : String) (nodeExists : Bool) (st : FsState) :
    Except FsError Unit × FsState :=
  match (if cfg.isDataFile path then
           (match tool.write st.stable content with
            | none => (Except.error FsError.toolError, st)
            | some c => (Except.ok c, st))
         else SopsFs.sopsCmdSet cfg tool st.stable path (.str content) st) with
  | (.error e, st3) => (.error e, st3)
  | (.ok temp1, st3) =>
    (.ok (), SopsFs.applySopsChange temp1
      (SopsFs.addChangeEvent path (if nodeExists then .changed else .created) st3))

/-! ## Path translation (C7) -/

theorem canonIndex_some_repr {key : String} {n : Nat} (h : canonIndex key = some n) :
    Nat.repr n = key := by
  unfold canonIndex at h
  rcases hk : parseAllDigits key.data with _ | m <;> rw [hk] at h
  · exact absurd h (by simp)
  · by_cases hr : Nat.repr m = key
    · simp only [hr, if_true, Option.some.injEq] at h
      subst h; exact hr
    · simp [hr] at h

theorem setPathGo_cons_arr {object : Json} {pre : List String} {a : List Json}
    (key : String) (tl : List String) (h : objGet object pre = some (.arr a)) :
    pathToSopsSetPathGo object pre (key :: tl) =
      match canonIndex key with
      | some idx =>
        match pathToSopsSetPathGo object (pre ++ [key]) tl with
        | .ok tl2 => .ok (("[" ++ Nat.repr idx ++ "]") :: tl2)
        | .error e => .error e
      | none => .error (.invalidArrayIndex key) := by
  conv_lhs => unfold pathToSopsSetPathGo
  rw [h]

theorem setPathGo_cons_notarr {object : Json} {pre : List String}
    (key : String) (tl : List String) (h : isArrParent object pre = false) :
    pathToSopsSetPathGo object pre (key :: tl) =
      match pathToSopsSetPathGo object (pre ++ [key]) tl with
      | .ok tl2 => .ok (("[\"" ++ key ++ "\"]") :: tl2)
      | .error e => .error e := by
  conv_lhs => unfold pathToSopsSetPathGo
  unfold isArrParent at h
  rcases hg : objGet object pre with _ | v
  · rfl
  · rcases v with _ | _ | _ | _ | a | _ <;> first
      | rfl
      | (rw [hg] at h; simp at h)

theorem setPathGo_error_invalid (object : Json) :
    ∀ (rest pre : List String) (e : FsError),
      pathToSopsSetPathGo object pre rest = .error e → ∃ k, e = .invalidArrayIndex k := by
  intro rest
  induction rest with
  | nil => intro pre e h; exact absurd h (by simp [pathToSopsSetPathGo])
  | cons key tl ih =>
    intro pre e h
    by_cases hA : isArrParent object pre = true
    · have hPar : ∃ a, objGet object pre = some (.arr a) := by
        unfold isArrParent at hA
        rcases hg : objGet object pre with _ | v
        · rw [hg] at hA; simp at hA
        · rcases v with _ | _ | _ | _ | a | _ <;> rw [hg] at hA <;> simp at hA
          exact ⟨a, rfl⟩
      rcases hPar with ⟨a, hPar⟩
      rw [setPathGo_cons_arr key tl hPar] at h
      rcases hC : canonIndex key with _ | idx <;> rw [hC] at h
      · exact ⟨key, by simpa using h.symm⟩
      · rcases hrec : pathToSopsSetPathGo object (pre ++ [key]) tl with e2 | tl2 <;>
          rw [hrec] at h
        · obtain rfl : e2 = e := by simpa using h
          exact ih (pre ++ [key]) _ hrec
        · exact absurd h (by simp)
    · rw [setPathGo_cons_notarr key tl (by simpa using hA)] at h
      rcases hrec : pathToSopsSetPathGo object (pre ++ [key]) tl with e2 | tl2 <;>
        rw [hrec] at h
      · obtain rfl : e2 = e := by simpa using h
        exact ih (pre ++ [key]) _ hrec
      · exact absurd h (by simp)

theorem matchRec_error_iff (head : String) (r : Except FsError (List String)) :
    (∃ k, (match r with
           | .ok tl2 => Except.ok (head :: tl2)
           | .error e => Except.error e) = Except.error (FsError.invalidArrayIndex k)) ↔
    (∃ k, r = .error (.invalidArrayIndex k)) := by
  rcases r with e | tl2 <;> simp

theorem isArrParent_true_elim {object : Json} {pre : List String}
    (hA : isArrParent object pre = true) : ∃ a, objGet object pre = some (.arr a) := by
  unfold isArrParent at hA
  rcases hg : objGet object pre with _ | v
  · rw [hg] at hA; simp at hA
  · rcases v with _ | _ | _ | _ | a | _ <;> rw [hg] at hA <;> simp at hA
    exact ⟨a, rfl⟩

theorem setPathGo_error_iff (object : Json) :
    ∀ (rest pre : List String),
      (∃ k, pathToSopsSetPathGo object pre rest = .error (.invalidArrayIndex k)) ↔
      ∃ j, j < rest.length ∧ isArrParent object (pre ++ rest.take j) = true ∧
        canonIndex (rest.getD j "") = none := by
  intro rest
  induction rest with
  | nil => intro pre; simp [pathToSopsSetPathGo]
  | cons key tl ih =>
    intro pre
    have shift :
        (∃ k, pathToSopsSetPathGo object (pre ++ [key]) tl = .error (.invalidArrayIndex k)) ↔
        ∃ j, 0 < j ∧ j < (key :: tl).length ∧
          isArrParent object (pre ++ (key :: tl).take j) = true ∧
          canonIndex ((key :: tl).getD j "") = none := by
      rw [ih (pre ++ [key])]
      constructor
      · rintro ⟨j, hj, h1, h2⟩
        refine ⟨j + 1, by omega, by simp only [List.length_cons]; omega, ?_, by simpa using h2⟩
        simpa [List.append_assoc] using h1
      · rintro ⟨j, hj0, hj, h1, h2⟩
        rcases j with _ | j
        · omega
        · refine ⟨j, by simpa using hj, ?_, by simpa using h2⟩
          simpa [List.append_assoc] using h1
    by_cases hbad : isArrParent object pre = true ∧ canonIndex key = none
    · obtain ⟨hA, hC⟩ := hbad
      obtain ⟨a, hPar⟩ := isArrParent_true_elim hA
      constructor
      · intro _
        exact ⟨0, by simp, by simpa using hA, by simpa using hC⟩
      · intro _
        exact ⟨key, by rw [setPathGo_cons_arr key tl hPar, hC]⟩
    · have hstep : ∃ head, pathToSopsSetPathGo object pre (key :: tl) =
          (match pathToSopsSetPathGo object (pre ++ [key]) tl with
           | .ok tl2 => Except.ok (head :: tl2)
           | .error e => Except.error e) := by
        by_cases hA : isArrParent object pre = true
        · obtain ⟨a, hPar⟩ := isArrParent_true_elim hA
          rcases hC : canonIndex key with _ | idx
          · exact absurd ⟨hA, hC⟩ hbad
          · exact ⟨"[" ++ Nat.repr idx ++ "]",
              by rw [setPathGo_cons_arr key tl hPar, hC]⟩
        · exact ⟨"[\"" ++ key ++ "\"]",
            setPathGo_cons_notarr key tl (by simpa using hA)⟩
      obtain ⟨head, hstep⟩ := hstep
      rw [hstep, matchRec_error_iff, shift]
      constructor
      · rintro ⟨j, _, hj, h1, h2⟩
        exact ⟨j, hj, h1, h2⟩
      · rintro ⟨j, hj, h1, h2⟩
        refine ⟨j, ?_, hj, h1, h2⟩
        rcases j with _ | j
        · exact absurd ⟨by simpa using h1, by simpa using h2⟩ hbad
        · omega

theorem setPathGo_ok (object : Json) :
    ∀ (rest pre : List String) (parts : List String),
      pathToSopsSetPathGo object pre rest = .ok parts →
      parts = renderedSegmentsGo object pre rest := by
  intro rest
  induction rest with
  | nil =>
    intro pre parts h
    simp only [pathToSopsSetPathGo, Except.ok.injEq] at h
    simp [renderedSegmentsGo, ← h]
  | cons key tl ih =>
    intro pre parts h
    by_cases hA : isArrParent object pre = true
    · obtain ⟨a, hPar⟩ := isArrParent_true_elim hA
      rcases hC : canonIndex key with _ | idx
      · rw [setPathGo_cons_arr key tl hPar, hC] at h
        exact absurd h (by simp)
      · rw [setPathGo_cons_arr key tl hPar, hC] at h
        rcases hrec : pathToSopsSetPathGo object (pre ++ [key]) tl with e | tl2 <;>
          rw [hrec] at h
        · exact absurd h (by simp)
        · simp only [Except.ok.injEq] at h
          rw [← h, renderedSegmentsGo, ih (pre ++ [key]) tl2 hrec,
            renderSegment, if_pos hA, canonIndex_some_repr hC]
    · rw [setPathGo_cons_notarr key tl (by simpa using hA)] at h
      rcases hrec : pathToSopsSetPathGo object (pre ++ [key]) tl with e | tl2 <;>
        rw [hrec] at h
      · exact absurd h (by simp)
      · simp only [Except.ok.injEq] at h
        rw [← h, renderedSegmentsGo, ih (pre ++ [key]) tl2 hrec,
          renderSegment, if_neg (by simp [hA])]

/-- **C7**: the translation of a tree address into the tool's set-path
expression fails — always with the invalid-array-index condition — exactly
when some segment whose already-resolved parent value is an array is not
the canonical decimal form of a non-negative integer; on success, each
canonical index segment is rendered as a bracketed numeric index and each
segment under a non-array parent as a bracketed double-quoted string key. -/
theorem claim_C7_path_translation (path : List String) (object : Json) :
    ((∃ k, pathToSopsSetPath path object = .error (.invalidArrayIndex k)) ↔
      ∃ j, j < path.length ∧ isArrParent object (path.take j) = true ∧
        canonIndex (path.getD j "") = none) ∧
    (∀ e, pathToSopsSetPath path object = .error e → ∃ k, e = .invalidArrayIndex k) ∧
    (∀ s, pathToSopsSetPath path object = .ok s → s = renderedSetPath object path) := by
  refine ⟨?_, ?_, ?_⟩
  · have hbase := setPathGo_error_iff object path []
    simp only [List.nil_append] at hbase
    rw [← hbase]
    unfold pathToSopsSetPath
    rcases hgo : pathToSopsSetPathGo object [] path with e | parts <;> simp
  · intro e h
    unfold pathToSopsSetPath at h
    rcases hgo : pathToSopsSetPathGo object [] path with e2 | parts <;> rw [hgo] at h
    · obtain rfl : e2 = e := by simpa using h
      exact setPathGo_error_invalid object path [] _ hgo
    · exact absurd h (by simp)
  · intro s h
    unfold pathToSopsSetPath at h
    rcases hgo : pathToSopsSetPathGo object [] path with e2 | parts <;> rw [hgo] at h
    · exact absurd h (by simp)
    · simp only [Except.ok.injEq] at h
      rw [← h, renderedSetPath, setPathGo_ok object path [] parts hgo]

/-- Witness for C7 at concrete inputs: under an array parent the segment
`"01"` is rejected as an invalid array index, and a canonical segment pair
renders as a quoted key followed by a numeric index. -/
theorem claim_C7_path_translation_witness :
    (∃ k, pathToSopsSetPath ["a", "01"]
        (Json.obj [("a", Json.arr [Json.num "1", Json.num "2"])]) =
        .error (.invalidArrayIndex k)) ∧
    "[\"a\"][1]" =
      renderedSetPath (Json.obj [("a", Json.arr [Json.num "1", Json.num "2"])]) ["a", "1"] := by
  constructor
  · exact (claim_C7_path_translation ["a", "01"]
      (Json.obj [("a", Json.arr [Json.num "1", Json.num "2"])])).1.mpr
      ⟨1, by decide, by decide, by decide⟩
  · exact (claim_C7_path_translation ["a", "1"]
      (Json.obj [("a", Json.arr [Json.num "1", Json.num "2"])])).2.2 _ rfl

/-! ## Change-event batching (C2) -/

theorem dataFilename_ne_empty (cfg : SopsCfg) : cfg.dataFilename ≠ "" := by
  unfold SopsCfg.dataFilename
  intro h
  have hlen := congrArg String.length h
  rw [String.length_append] at hlen
  simp at hlen
  exact absurd hlen.1 (by decide)

theorem flushChanges_eq (cfg : SopsCfg) (st : FsState) :
    SopsFs.flushChanges cfg st =
      (st.fileChanges ++
        (if st.fileChanges.isEmpty then [⟨"/", FileChangeType.changed⟩] else []) ++
        [⟨evPath [cfg.dataFilename], FileChangeType.changed⟩],
       { st with fileChanges := [], pendingFlush := false }) := by
  have hdf : (cfg.dataFilename != "") = true := by
    simpa using dataFilename_ne_empty cfg
  have hroot : evPath [] = "/" := rfl
  unfold SopsFs.flushChanges SopsFs.addChangeEvent
  rw [hdf]
  by_cases hfc : st.fileChanges.isEmpty <;> simp [hfc, hroot]

theorem bufferEvents_spec :
    ∀ (evs : List (List String × FileChangeType)) (st : FsState),
      bufferEvents evs st =
        { st with fileChanges :=
            st.fileChanges ++ evs.map (fun e => ⟨evPath e.1, e.2⟩) } := by
  intro evs
  induction evs with
  | nil => intro st; simp [bufferEvents]
  | cons e tl ih =>
    intro st
    show bufferEvents tl (SopsFs.addChangeEvent e.1 e.2 st) = _
    rw [ih]
    simp [SopsFs.addChangeEvent]

/-- **C2** (amended): a flushed batch consists of the buffered events in
insertion order, then a root-level `Changed` event exactly when no specific
events were buffered, then always the synthetic raw-data entry's `Changed`
event; flushing clears the buffer; and every event of a burst buffered
before the single trailing-edge flush is delivered in that one batch. -/
theorem claim_C2_flush_batch (cfg : SopsCfg) :
    (∀ st : FsState,
      (SopsFs.flushChanges cfg st).1 =
        st.fileChanges ++
          (if st.fileChanges.isEmpty then [⟨"/", FileChangeType.changed⟩] else []) ++
          [⟨evPath [cfg.dataFilename], FileChangeType.changed⟩] ∧
      (SopsFs.flushChanges cfg st).2.fileChanges = []) ∧
    (∀ (evs : List (List String × FileChangeType)) (st : FsState),
      st.fileChanges = [] → evs ≠ [] →
      (SopsFs.flushChanges cfg (bufferEvents evs st)).1 =
        evs.map (fun e => ⟨evPath e.1, e.2⟩) ++
          [⟨evPath [cfg.dataFilename], FileChangeType.changed⟩]) := by
  constructor
  · intro st
    rw [flushChanges_eq]
    exact ⟨rfl, rfl⟩
  · intro evs st hst hevs
    rw [bufferEvents_spec, flushChanges_eq]
    simp only [hst, List.nil_append]
    have : (evs.map (fun e => (⟨evPath e.1, e.2⟩ : FileChangeEvent))).isEmpty = false := by
      rcases evs with _ | ⟨e, tl⟩
      · exact absurd rfl hevs
      · rfl
    rw [this]
    simp

/-- Witness for C2 (amended) at a concrete burst: two buffered mutations
flush as one batch of their two events followed by the synthetic-entry
event. -/
theorem claim_C2_flush_batch_witness :
    (SopsFs.flushChanges jsonCfg
        (bufferEvents [(["a"], .deleted), (["b"], .created)]
          ⟨scenarioDoc, ⟨1, 2, 30⟩, none, [], false⟩)).1 =
      [⟨"/a", FileChangeType.deleted⟩, ⟨"/b", FileChangeType.created⟩,
       ⟨evPath [jsonCfg.dataFilename], FileChangeType.changed⟩] :=
  (claim_C2_flush_batch jsonCfg).2 [(["a"], .deleted), (["b"], .created)]
    ⟨scenarioDoc, ⟨1, 2, 30⟩, none, [], false⟩ rfl (by simp)

/-- **C2** (counterexample): a batch flushed after one buffered specific
event contains no root-level `Changed` event, contradicting the claim that
every batch contains one. -/
theorem claim_C2_counterexample :
    (SopsFs.flushChanges jsonCfg
        ⟨scenarioDoc, ⟨1, 2, 30⟩, none, [⟨"/a/b", .deleted⟩], true⟩).1 =
      [⟨"/a/b", FileChangeType.deleted⟩, ⟨"/__sopsfs__.json", FileChangeType.changed⟩] ∧
    (⟨"/", FileChangeType.changed⟩ : FileChangeEvent) ∉
      (SopsFs.flushChanges jsonCfg
        ⟨scenarioDoc, ⟨1, 2, 30⟩, none, [⟨"/a/b", .deleted⟩], true⟩).1 := by
  constructor
  · rfl
  · decide

/-! ## Concrete scenario (C3) -/

/-- **C3** (counterexample): in the scenario document, after
`delete("/a/b")` succeeds, `read("/a")` does not return the now-empty
object — the node at `"a"` is a directory and the read fails with
`FileIsADirectory`. -/
theorem claim_C3_counterexample :
    (SopsFs.delete jsonCfg specTool ["a", "b"] scenarioState).1 = .ok () ∧
    (SopsFs.readFile jsonCfg specTool ["a"] scenarioAfterDelete).1 =
      .error .fileIsADirectory := ⟨rfl, rfl⟩

/-- **C3** (amended): for the JSON document `\x7b"a": \x7b"b": "secret"\x7d\x7d`,
`list("/")` returns the synthetic raw-data entry first and then `"a"`;
`read("/a/b")` returns `"secret"`; after `delete("/a/b")` succeeds,
`read("/a/b")` fails with `FileNotFound`, `read("/a")` fails with
`FileIsADirectory` (the value at `"a"` is now the empty object, a
directory), and `list("/a")` returns no entries. -/
theorem claim_C3_scenario :
    (SopsFs.readDirectory jsonCfg specTool [] scenarioState).1 =
      .ok [("__sopsfs__.json", .file), ("a", .directory)] ∧
    (SopsFs.readFile jsonCfg specTool ["a", "b"] scenarioState).1 = .ok "secret" ∧
    (SopsFs.delete jsonCfg specTool ["a", "b"] scenarioState).1 = .ok () ∧
    (SopsFs.readFile jsonCfg specTool ["a", "b"] scenarioAfterDelete).1 =
      .error .fileNotFound ∧
    (SopsFs.readFile jsonCfg specTool ["a"] scenarioAfterDelete).1 =
      .error .fileIsADirectory ∧
    (SopsFs.readDirectory jsonCfg specTool ["a"] scenarioAfterDelete).1 = .ok [] :=
  ⟨rfl, rfl, rfl, rfl, rfl, rfl⟩

/-! ## Synthetic-entry delete (C5) -/

theorem getTree_preserves (cfg : SopsCfg) (tool : SopsTool) (st : FsState)
    {r : Except FsError Snapshot} {st1 : FsState}
    (h : SopsFs.getTree cfg tool st = (r, st1)) :
    st1.stable = st.stable ∧ st1.stableStat = st.stableStat ∧
    st1.fileChanges = st.fileChanges ∧ st1.pendingFlush = st.pendingFlush ∧
    (∀ s, st.cache = some s → st1.cache = some s) := by
  unfold SopsFs.getTree at h
  rcases hc : st.cache with _ | c <;> rw [hc] at h <;> dsimp only at h
  · rcases hd : tool.decrypt st.stable with _ | rawOut <;> rw [hd] at h <;> dsimp only at h
    · injection h with h1 h2
      subst h2
      simp [hc]
    · by_cases hb : cfg.sopsFormat = SopsFormat.binary
      · rw [if_pos hb] at h
        injection h with h1 h2
        subst h2
        simp [hc]
      · rw [if_neg hb] at h
        rcases hj : tool.decryptJson st.stable with _ | j <;> rw [hj] at h <;> dsimp only at h
        · injection h with h1 h2
          subst h2
          simp [hc]
        · injection h with h1 h2
          subst h2
          simp [hc]
  · injection h with h1 h2
    subst h2
    simp [hc]

theorem isDataFile_self (cfg : SopsCfg) : cfg.isDataFile [cfg.dataFilename] = true := by
  unfold SopsCfg.isDataFile
  rw [Bool.and_eq_true]
  exact ⟨bne_iff_ne.mpr (dataFilename_ne_empty cfg), beq_self_eq_true _⟩

theorem getTreeNodeCore_dataFile (cfg : SopsCfg) (snap : Snapshot) :
    SopsFs.getTreeNodeCore cfg snap [cfg.dataFilename] =
      .ok (.file ⟨.file, snap.stat.ctime, snap.stat.mtime, snap.raw.utf8ByteSize⟩ snap.raw) := by
  unfold SopsFs.getTreeNodeCore SopsFs.resolveNode
  rw [isDataFile_self]
  rfl

/-- **C5**: on any document whose snapshot can be obtained (cached or
decryptable), deleting the synthetic raw-data entry fails with the
permission-denied condition, and the stable encrypted document is
byte-identical to its content before the call — no tool invocation or
temporary-file commit is applied to it. -/
theorem claim_C5_delete_data_file (cfg : SopsCfg) (tool : SopsTool) (st : FsState)
    (h : ∃ snap st1, SopsFs.getTree cfg tool st = (.ok snap, st1)) :
    (SopsFs.delete cfg tool [cfg.dataFilename] st).1 =
      .error (.noPermissions "Deletion of data file is forbidden") ∧
    (SopsFs.delete cfg tool [cfg.dataFilename] st).2.stable = st.stable := by
  obtain ⟨snap, st1, hgt⟩ := h
  have heq : SopsFs.getTreeNode cfg tool [cfg.dataFilename] st =
      (.ok (.file ⟨.file, snap.stat.ctime, snap.stat.mtime, snap.raw.utf8ByteSize⟩ snap.raw), st1) := by
    unfold SopsFs.getTreeNode
    rw [hgt]
    dsimp only
    rw [getTreeNodeCore_dataFile]
  have hdel : SopsFs.delete cfg tool [cfg.dataFilename] st =
      (.error (.noPermissions "Deletion of data file is forbidden"), st1) := by
    unfold SopsFs.delete
    rw [heq]
    dsimp only
    simp [isDataFile_self]
  rw [hdel]
  exact ⟨rfl, (getTree_preserves cfg tool st hgt).1⟩

/-- Witness for C5 on the concrete scenario document. -/
theorem claim_C5_delete_data_file_witness :
    (SopsFs.delete jsonCfg specTool ["__sopsfs__.json"] scenarioState).1 =
      .error (.noPermissions "Deletion of data file is forbidden") ∧
    (SopsFs.delete jsonCfg specTool ["__sopsfs__.json"] scenarioState).2.stable =
      scenarioState.stable :=
  claim_C5_delete_data_file jsonCfg specTool scenarioState ⟨_, _, rfl⟩

/-! ## Null leaves and leaf classification (C10) -/

theorem getTree_cache_hit {cfg : SopsCfg} {tool : SopsTool} {st : FsState} {snap : Snapshot}
    (hc : st.cache = some snap) : SopsFs.getTree cfg tool st = (.ok snap, st) := by
  unfold SopsFs.getTree
  rw [hc]

theorem getTreeNode_cache_hit {cfg : SopsCfg} {tool : SopsTool} {st : FsState} {snap : Snapshot}
    (hc : st.cache = some snap) (path : List String) :
    SopsFs.getTreeNode cfg tool path st = (SopsFs.getTreeNodeCore cfg snap path, st) := by
  unfold SopsFs.getTreeNode
  rw [getTree_cache_hit hc]

theorem getTreeNodeCore_null {cfg : SopsCfg} {snap : Snapshot} {tree : Json}
    {path : List String} (ht : snap.tree = some tree) (hd : cfg.isDataFile path = false)
    (hp : objGet tree path = some .null) :
    SopsFs.getTreeNodeCore cfg snap path = .error .nullToString := by
  unfold SopsFs.getTreeNodeCore SopsFs.resolveNode
  simp only [hd, Bool.false_eq_true, if_false, ht, hp]
  rfl

theorem jsToString_total {v : Json} (hv : treeValueToType v = .file) (hn : v ≠ .null) :
    ∃ s, jsToString v = some s := by
  rcases v with _ | b | r | s | a | f
  · exact absurd rfl hn
  · rcases b <;> exact ⟨_, rfl⟩
  · exact ⟨_, rfl⟩
  · exact ⟨_, rfl⟩
  · exact absurd hv (by simp [treeValueToType])
  · exact absurd hv (by simp [treeValueToType])

theorem getTreeNodeCore_leaf {cfg : SopsCfg} {snap : Snapshot} {tree v : Json}
    {path : List String} {s : String} (ht : snap.tree = some tree)
    (hd : cfg.isDataFile path = false) (hp : objGet tree path = some v)
    (hv : treeValueToType v = .file) (hs : jsToString v = some s) (hne : path ≠ []) :
    SopsFs.getTreeNodeCore cfg snap path =
      .ok (.file ⟨.file, snap.stat.ctime, snap.stat.mtime, s.utf8ByteSize⟩ s) := by
  have hE : path.isEmpty = false := by
    cases path
    · exact absurd rfl hne
    · rfl
  unfold SopsFs.getTreeNodeCore SopsFs.resolveNode
  simp only [hd, Bool.false_eq_true, if_false, ht, hp, hv, hs, hE, Bool.false_and]

/-- **C10**: in a structured snapshot, a leaf whose JSON value is `null`
makes `stat`, `readFile` and `readDirectory` fail with the runtime type
error of converting `null` to a string (none of the declared filesystem
errors), while a leaf whose value is neither `null` nor an object/array is
classified as a file whose byte payload is the value's string form. -/
theorem claim_C10_null_leaf (cfg : SopsCfg) (tool : SopsTool) (st : FsState)
    (snap : Snapshot) (tree : Json) (hc : st.cache = some snap)
    (ht : snap.tree = some tree) :
    (∀ path, cfg.isDataFile path = false → objGet tree path = some .null →
      (SopsFs.stat cfg tool path st).1 = .error .nullToString ∧
      (SopsFs.readFile cfg tool path st).1 = .error .nullToString ∧
      (SopsFs.readDirectory cfg tool path st).1 = .error .nullToString) ∧
    (∀ path v, cfg.isDataFile path = false → objGet tree path = some v →
      treeValueToType v = .file → v ≠ .null → path ≠ [] →
      ∃ s, jsToString v = some s ∧
        SopsFs.getTreeNodeCore cfg snap path =
          .ok (.file ⟨.file, snap.stat.ctime, snap.stat.mtime, s.utf8ByteSize⟩ s) ∧
        (SopsFs.readFile cfg tool path st).1 = .ok s) := by
  constructor
  · intro path hd hp
    have hcore := getTreeNodeCore_null ht hd hp
    refine ⟨?_, ?_, ?_⟩
    · unfold SopsFs.stat
      rw [getTreeNode_cache_hit hc, hcore]
    · unfold SopsFs.readFile
      rw [getTreeNode_cache_hit hc, hcore]
    · unfold SopsFs.readDirectory
      rw [getTreeNode_cache_hit hc, hcore]
  · intro path v hd hp hv hn hne
    obtain ⟨s, hs⟩ := jsToString_total hv hn
    have hcore := getTreeNodeCore_leaf ht hd hp hv hs hne
    refine ⟨s, hs, hcore, ?_⟩
    unfold SopsFs.readFile
    rw [getTreeNode_cache_hit hc, hcore]

/-- Witness for C10 on a concrete snapshot holding a `null` leaf at `"n"`
and a numeric leaf at `"x"`. -/
theorem claim_C10_null_leaf_witness :
    (SopsFs.readFile jsonCfg specTool ["n"]
        ⟨"doc", ⟨1, 2, 3⟩,
          some ⟨⟨1, 2, 3⟩, "raw", some (Json.obj [("n", Json.null), ("x", Json.num "5")])⟩,
          [], false⟩).1 = .error .nullToString ∧
    ∃ s, jsToString (Json.num "5") = some s ∧
      SopsFs.getTreeNodeCore jsonCfg
          ⟨⟨1, 2, 3⟩, "raw", some (Json.obj [("n", Json.null), ("x", Json.num "5")])⟩ ["x"] =
        .ok (.file ⟨.file, 1, 2, s.utf8ByteSize⟩ s) ∧
      (SopsFs.readFile jsonCfg specTool ["x"]
        ⟨"doc", ⟨1, 2, 3⟩,
          some ⟨⟨1, 2, 3⟩, "raw", some (Json.obj [("n", Json.null), ("x", Json.num "5")])⟩,
          [], false⟩).1 = .ok s := by
  have base := claim_C10_null_leaf jsonCfg specTool
    ⟨"doc", ⟨1, 2, 3⟩,
      some ⟨⟨1, 2, 3⟩, "raw", some (Json.obj [("n", Json.null), ("x", Json.num "5")])⟩,
      [], false⟩
    ⟨⟨1, 2, 3⟩, "raw", some (Json.obj [("n", Json.null), ("x", Json.num "5")])⟩
    (Json.obj [("n", Json.null), ("x", Json.num "5")]) rfl rfl
  exact ⟨(base.1 ["n"] (by decide) rfl).2.1,
    base.2 ["x"] (Json.num "5") (by decide) rfl rfl (by intro h; cases h) (by simp)⟩

/-! ## writeFile pre-checks (C4) -/

theorem pathToSopsSetPath_error_invalid {path : List String} {object : Json} {e : FsError}
    (h : pathToSopsSetPath path object = .error e) : ∃ k, e = .invalidArrayIndex k := by
  unfold pathToSopsSetPath at h
  rcases hgo : pathToSopsSetPathGo object [] path with e2 | parts <;> rw [hgo] at h
  · obtain rfl : e2 = e := by simpa using h
    exact setPathGo_error_invalid object path [] _ hgo
  · exact absurd h (by simp)

theorem resolves_true_iff (cfg : SopsCfg) (snap : Snapshot) (path : List String) :
    resolves cfg snap path = true ↔ ∃ n, SopsFs.getTreeNodeCore cfg snap path = .ok n := by
  unfold resolves
  rcases h : SopsFs.getTreeNodeCore cfg snap path with e | n <;> simp

theorem resolves_false_iff (cfg : SopsCfg) (snap : Snapshot) (path : List String) :
    resolves cfg snap path = false ↔ ∃ e, SopsFs.getTreeNodeCore cfg snap path = .error e := by
  unfold resolves
  rcases h : SopsFs.getTreeNodeCore cfg snap path with e | n <;> simp

theorem isDataFile_eq {cfg : SopsCfg} {path : List String}
    (h : cfg.isDataFile path = true) : path = [cfg.dataFilename] := by
  unfold SopsCfg.isDataFile at h
  rcases path with _ | ⟨k, _ | _⟩
  · simp at h
  · rw [Bool.and_eq_true] at h
    obtain rfl : cfg.dataFilename = k := by simpa using h.2
    rfl
  · simp at h

theorem objGet_cons_arr_eq (elems : List Json) (k : String) (rest : List String) :
    objGet (.arr elems) (k :: rest) =
      (match canonIndex k with
       | some n =>
         (match elems.get? n with
          | some v => objGet v rest
          | none => none)
       | none => none) := rfl

theorem objGet_cons_obj_eq (fields : List (String × Json)) (k : String) (rest : List String) :
    objGet (.obj fields) (k :: rest) =
      (match fields.find? (fun p => p.1 = k) with
       | some p => objGet p.2 rest
       | none => none) := rfl

theorem objGet_append (xs : List String) :
    ∀ (t : Json) (ys : List String),
      objGet t (xs ++ ys) =
        (match objGet t xs with
         | some v => objGet v ys
         | none => none) := by
  induction xs with
  | nil => intro t ys; simp [objGet]
  | cons k tl ih =>
    intro t ys
    rcases t with _ | b | r | s | elems | fields
    · simp [objGet]
    · simp [objGet]
    · simp [objGet]
    · simp [objGet]
    · simp only [List.cons_append, objGet_cons_arr_eq]
      rcases canonIndex k with _ | n
      · rfl
      · dsimp only
        rcases hv : elems.get? n with _ | v
        · rfl
        · exact ih v ys
    · simp only [List.cons_append, objGet_cons_obj_eq]
      rcases hf : fields.find? (fun p => p.1 = k) with _ | p <;> rw [hf]
      exact ih p.2 ys

theorem objGet_parent_container {t v : Json} {q : List String} {k : String}
    (h : objGet t (q ++ [k]) = some v) :
    ∃ p, objGet t q = some p ∧ treeValueToType p = .directory := by
  rw [objGet_append q t [k]] at h
  rcases hp : objGet t q with _ | p <;> rw [hp] at h
  · exact absurd h (by simp)
  · refine ⟨p, rfl, ?_⟩
    rcases p with _ | b | r | s | elems | fields
    · exact absurd h (by simp [objGet])
    · exact absurd h (by simp [objGet])
    · exact absurd h (by simp [objGet])
    · exact absurd h (by simp [objGet])
    · rfl
    · rfl

theorem getTreeNodeCore_notFound {cfg : SopsCfg} {snap : Snapshot} {tree : Json}
    {path : List String} (ht : snap.tree = some tree) (hd : cfg.isDataFile path = false)
    (hp : objGet tree path = none) :
    SopsFs.getTreeNodeCore cfg snap path = .error .fileNotFound := by
  unfold SopsFs.getTreeNodeCore SopsFs.resolveNode
  simp only [hd, Bool.false_eq_true, if_false, ht, hp]

theorem getTreeNodeCore_dir_ok {cfg : SopsCfg} {snap : Snapshot} {tree v : Json}
    {path : List String} (ht : snap.tree = some tree) (hd : cfg.isDataFile path = false)
    (hp : objGet tree path = some v) (hv : treeValueToType v = .directory) :
    ∃ n, SopsFs.getTreeNodeCore cfg snap path = .ok n := by
  unfold SopsFs.getTreeNodeCore SopsFs.resolveNode
  simp only [hd, Bool.false_eq_true, if_false, ht, hp, hv]
  by_cases hE : path.isEmpty
  · rw [hE]
    by_cases hdf : (cfg.dataFilename != "") = true
    · rw [hdf]
      exact ⟨_, rfl⟩
    · rw [Bool.not_eq_true] at hdf
      rw [hdf]
      exact ⟨_, rfl⟩
  · rw [Bool.not_eq_true] at hE
    rw [hE]
    exact ⟨_, rfl⟩

theorem resolves_parent {cfg : SopsCfg} {snap : Snapshot} {fields : List (String × Json)}
    (ht : snap.tree = some (.obj fields)) {q : List String} {k : String}
    (h : resolves cfg snap (q ++ [k]) = true) : resolves cfg snap q = true := by
  by_cases hdQK : cfg.isDataFile (q ++ [k]) = true
  · have hq : q = [] := by
      have := isDataFile_eq hdQK
      rcases q with _ | ⟨a, tl⟩
      · rfl
      · exfalso
        have hlen := congrArg List.length this
        simp at hlen
    subst hq
    rw [resolves_true_iff]
    exact getTreeNodeCore_dir_ok (v := .obj fields) ht rfl rfl rfl
  · rw [Bool.not_eq_true] at hdQK
    rw [resolves_true_iff] at h
    obtain ⟨n, hn⟩ := h
    have hget : ∃ v, objGet (Json.obj fields) (q ++ [k]) = some v := by
      rcases hg : objGet (Json.obj fields) (q ++ [k]) with _ | v
      · rw [getTreeNodeCore_notFound ht hdQK hg] at hn
        exact absurd hn (by simp)
      · exact ⟨v, rfl⟩
    obtain ⟨v, hv⟩ := hget
    obtain ⟨p, hpq, hpd⟩ := objGet_parent_container hv
    rw [resolves_true_iff]
    by_cases hdQ : cfg.isDataFile q = true
    · obtain rfl := isDataFile_eq hdQ
      exact ⟨_, getTreeNodeCore_dataFile cfg snap⟩
    · rw [Bool.not_eq_true] at hdQ
      exact getTreeNodeCore_dir_ok ht hdQ hpq hpd

theorem sopsCmdSet_cache_hit_error {cfg : SopsCfg} {tool : SopsTool} {file : String}
    {path : List String} {value : Json} {st : FsState} {snap : Snapshot}
    {e : FsError} {st1 : FsState} (hc : st.cache = some snap)
    (h : SopsFs.sopsCmdSet cfg tool file path value st = (.error e, st1)) :
    e ≠ .fileNotFound ∧ e ≠ .fileExists := by
  unfold SopsFs.sopsCmdSet at h
  by_cases hb : cfg.sopsFormat = SopsFormat.binary
  · rw [if_pos hb] at h
    injection h with h1 h2
    obtain rfl : FsError.noPermissions "Set value on binary file is invalid" = e := by
      simpa using h1
    exact ⟨by simp, by simp⟩
  · rw [if_neg hb, getTree_cache_hit hc] at h
    dsimp only at h
    rcases hsp : pathToSopsSetPath path
        (match snap.tree with | some t => t | none => Json.obj []) with e2 | sp <;>
      rw [hsp] at h
    · injection h with h1 h2
      obtain rfl : e2 = e := by simpa using h1
      obtain ⟨k, rfl⟩ := pathToSopsSetPath_error_invalid hsp
      exact ⟨by simp, by simp⟩
    · rcases hset : tool.set file path value with _ | c <;> rw [hset] at h
      · injection h with h1 h2
        obtain rfl : FsError.toolError = e := by simpa using h1
        exact ⟨by simp, by simp⟩
      · exact absurd h (by simp)

theorem writeFile_eval (cfg : SopsCfg) (tool : SopsTool) (st : FsState) (snap : Snapshot)
    (path : List String) (content : String) (create overwrite : Bool)
    (hc : st.cache = some snap) :
    SopsFs.writeFile cfg tool path content create overwrite st =
      (let parent : Option TreeNode :=
         match SopsFs.getTreeNodeCore cfg snap path.dropLast with
         | .ok n => some n
         | .error _ => none
       let node : Option TreeNode :=
         match parent with
         | some _ =>
           (match SopsFs.getTreeNodeCore cfg snap path with
            | .ok n => some n
            | .error _ => none)
         | none => none
       if node.isNone && !create then (.error .fileNotFound, st)
       else if parent.isNone && create then (.error .fileNotFound, st)
       else if node.isSome && create && !overwrite then (.error .fileExists, st)
       else writeFileMutate cfg tool path content node.isSome st) := by
  unfold SopsFs.writeFile writeFileMutate
  rw [getTreeNode_cache_hit hc path.dropLast]
  rcases hP : SopsFs.getTreeNodeCore cfg snap path.dropLast with eP | nP
  · rfl
  · dsimp only
    rw [getTreeNode_cache_hit hc path]
    rcases hN : SopsFs.getTreeNodeCore cfg snap path with eN | nN
    · rfl
    · rfl

theorem resolves_dropLast {cfg : SopsCfg} {snap : Snapshot} {fields : List (String × Json)}
    (ht : snap.tree = some (.obj fields)) {path : List String}
    (h : resolves cfg snap path = true) : resolves cfg snap path.dropLast = true := by
  rcases List.eq_nil_or_concat path with rfl | ⟨q, k, rfl⟩
  · simpa using h
  · rw [List.concat_eq_append] at h ⊢
    rw [List.dropLast_concat]
    exact resolves_parent ht h

theorem writeFileMutate_error {cfg : SopsCfg} {tool : SopsTool} {path : List String}
    {content : String} {b : Bool} {st : FsState} {snap : Snapshot} {e : FsError}
    {st3 : FsState} (hc : st.cache = some snap)
    (h : writeFileMutate cfg tool path content b st = (.error e, st3)) :
    e ≠ .fileNotFound ∧ e ≠ .fileExists := by
  unfold writeFileMutate at h
  by_cases hd : cfg.isDataFile path = true
  · rw [if_pos hd] at h
    rcases hw : tool.write st.stable content with _ | c <;> rw [hw] at h <;> dsimp only at h
    · injection h with h1 h2
      obtain rfl : FsError.toolError = e := by simpa using h1
      exact ⟨by simp, by simp⟩
    · exact absurd h (by simp)
  · rw [if_neg hd] at h
    rcases hs : SopsFs.sopsCmdSet cfg tool st.stable path (.str content) st with ⟨r, stX⟩
    rw [hs] at h
    rcases r with e2 | temp1 <;> dsimp only at h
    · injection h with h1 h2
      obtain rfl : e2 = e := by simpa using h1
      exact sopsCmdSet_cache_hit_error hc hs
    · exact absurd h (by simp)

/-- **C4**: under a loaded structured snapshot, `writeFile` enforces exactly
the specified pre-checks before any mutation: an unresolvable path without
`create` and an unresolvable parent with `create` fail with `FileNotFound`;
a resolvable path with `create` but not `overwrite` fails with
`FileExists`; and these are the only sources of those two errors. -/
theorem claim_C4_writeFile_prechecks (cfg : SopsCfg) (tool : SopsTool) (st : FsState)
    (snap : Snapshot) (fields : List (String × Json)) (path : List String)
    (content : String) (create overwrite : Bool)
    (hc : st.cache = some snap) (ht : snap.tree = some (.obj fields)) :
    ((resolves cfg snap path = false ∧ create = false) →
      (SopsFs.writeFile cfg tool path content create overwrite st).1 =
        .error .fileNotFound) ∧
    ((resolves cfg snap path.dropLast = false ∧ create = true) →
      (SopsFs.writeFile cfg tool path content create overwrite st).1 =
        .error .fileNotFound) ∧
    ((resolves cfg snap path = true ∧ create = true ∧ overwrite = false) →
      (SopsFs.writeFile cfg tool path content create overwrite st).1 =
        .error .fileExists) ∧
    ((SopsFs.writeFile cfg tool path content create overwrite st).1 =
        .error .fileNotFound →
      (resolves cfg snap path = false ∧ create = false) ∨
      (resolves cfg snap path.dropLast = false ∧ create = true)) ∧
    ((SopsFs.writeFile cfg tool path content create overwrite st).1 =
        .error .fileExists →
      resolves cfg snap path = true ∧ create = true ∧ overwrite = false) := by
  refine ⟨?_, ?_, ?_, ?_, ?_⟩
  · rintro ⟨h1, rfl⟩
    rw [resolves_false_iff] at h1
    obtain ⟨eN, heN⟩ := h1
    rw [writeFile_eval cfg tool st snap path content false overwrite hc]
    rcases hP : SopsFs.getTreeNodeCore cfg snap path.dropLast with eP | nP <;> dsimp only
    · rfl
    · rw [heN]
      rfl
  · rintro ⟨h1, rfl⟩
    rw [resolves_false_iff] at h1
    obtain ⟨eP, heP⟩ := h1
    rw [writeFile_eval cfg tool st snap path content true overwrite hc, heP]
    rfl
  · rintro ⟨h1, rfl, rfl⟩
    have hPar : resolves cfg snap path.dropLast = true := resolves_dropLast ht h1
    rw [resolves_true_iff] at h1 hPar
    obtain ⟨nN, hN⟩ := h1
    obtain ⟨nP, hP⟩ := hPar
    rw [writeFile_eval cfg tool st snap path content true false hc, hN, hP]
    rfl
  · intro h
    rw [writeFile_eval cfg tool st snap path content create overwrite hc] at h
    rcases hP : SopsFs.getTreeNodeCore cfg snap path.dropLast with eP | nP <;> rw [hP] at h
    · have rPfalse : resolves cfg snap path.dropLast = false := by
        unfold resolves
        rw [hP]
      have rNfalse : resolves cfg snap path = false := by
        cases hres : resolves cfg snap path
        · rfl
        · have h2 := resolves_dropLast ht hres
          rw [rPfalse] at h2
          exact absurd h2 (by simp)
      cases create
      · exact Or.inl ⟨rNfalse, rfl⟩
      · exact Or.inr ⟨rPfalse, rfl⟩
    · rcases hN : SopsFs.getTreeNodeCore cfg snap path with eN | nN <;> rw [hN] at h <;>
        dsimp only at h
      · cases create
        · refine Or.inl ⟨?_, rfl⟩
          unfold resolves
          rw [hN]
        · simp only [Option.isNone_none, Bool.not_true, Bool.and_false, Bool.false_eq_true,
            if_false, Option.isNone_some, Bool.false_and, Bool.and_true,
            Option.isSome_none, Option.isSome_some] at h
          rcases hMu : writeFileMutate cfg tool path content false st with ⟨rMu, stMu⟩
          rw [hMu] at h
          rcases rMu with eMu | u
          · obtain rfl : eMu = .fileNotFound := by simpa using h
            exact absurd rfl (writeFileMutate_error hc hMu).1
          · exact absurd h (by simp)
      · cases create <;> cases overwrite <;>
          simp only [Option.isNone_some, Bool.not_true, Bool.not_false, Bool.and_false,
            Bool.and_true, Bool.false_and, Bool.true_and, Bool.false_eq_true,
            if_false, if_true, Option.isSome_some] at h
        · rcases hMu : writeFileMutate cfg tool path content true st with ⟨rMu, stMu⟩
          rw [hMu] at h
          rcases rMu with eMu | u
          · obtain rfl : eMu = .fileNotFound := by simpa using h
            exact absurd rfl (writeFileMutate_error hc hMu).1
          · exact absurd h (by simp)
        · rcases hMu : writeFileMutate cfg tool path content true st with ⟨rMu, stMu⟩
          rw [hMu] at h
          rcases rMu with eMu | u
          · obtain rfl : eMu = .fileNotFound := by simpa using h
            exact absurd rfl (writeFileMutate_error hc hMu).1
          · exact absurd h (by simp)
        · exact absurd h (by simp)
        · rcases hMu : writeFileMutate cfg tool path content true st with ⟨rMu, stMu⟩
          rw [hMu] at h
          rcases rMu with eMu | u
          · obtain rfl : eMu = .fileNotFound := by simpa using h
            exact absurd rfl (writeFileMutate_error hc hMu).1
          · exact absurd h (by simp)
  · intro h
    rw [writeFile_eval cfg tool st snap path content create overwrite hc] at h
    rcases hP : SopsFs.getTreeNodeCore cfg snap path.dropLast with eP | nP <;> rw [hP] at h <;>
      dsimp only at h
    · cases create <;> simp at h
    · rcases hN : SopsFs.getTreeNodeCore cfg snap path with eN | nN <;> rw [hN] at h <;>
        dsimp only at h
      · cases create <;>
          simp only [Option.isNone_none, Option.isNone_some, Bool.not_true, Bool.not_false,
            Bool.and_false, Bool.and_true, Bool.false_and, Bool.true_and, Bool.false_eq_true,
            if_false, if_true, Option.isSome_none, Option.isSome_some] at h
        · exact absurd h (by simp)
        · rcases hMu : writeFileMutate cfg tool path content false st with ⟨rMu, stMu⟩
          rw [hMu] at h
          rcases rMu with eMu | u
          · obtain rfl : eMu = .fileExists := by simpa using h
            exact absurd rfl (writeFileMutate_error hc hMu).2
          · exact absurd h (by simp)
      · cases create <;> cases overwrite <;>
          simp only [Option.isNone_some, Bool.not_true, Bool.not_false, Bool.and_false,
            Bool.and_true, Bool.false_and, Bool.true_and, Bool.false_eq_true,
            if_false, if_true, Option.isSome_some] at h
        · rcases hMu : writeFileMutate cfg tool path content true st with ⟨rMu, stMu⟩
          rw [hMu] at h
          rcases rMu with eMu | u
          · obtain rfl : eMu = .fileExists := by simpa using h
            exact absurd rfl (writeFileMutate_error hc hMu).2
          · exact absurd h (by simp)
        · rcases hMu : writeFileMutate cfg tool path content true st with ⟨rMu, stMu⟩
          rw [hMu] at h
          rcases rMu with eMu | u
          · obtain rfl : eMu = .fileExists := by simpa using h
            exact absurd rfl (writeFileMutate_error hc hMu).2
          · exact absurd h (by simp)
        · refine ⟨?_, rfl, rfl⟩
          unfold resolves
          rw [hN]
        · rcases hMu : writeFileMutate cfg tool path content true st with ⟨rMu, stMu⟩
          rw [hMu] at h
          rcases rMu with eMu | u
          · obtain rfl : eMu = .fileExists := by simpa using h
            exact absurd rfl (writeFileMutate_error hc hMu).2
          · exact absurd h (by simp)

/-- Witness for C4 on a concrete cached snapshot: writing a missing path
without `create` fails `FileNotFound`; writing an existing path with
`create` but no `overwrite` fails `FileExists`. -/
theorem claim_C4_writeFile_prechecks_witness :
    (SopsFs.writeFile jsonCfg specTool ["missing"] "x" false true
      ⟨scenarioDoc, ⟨1, 2, 30⟩,
        some ⟨⟨1, 2, 30⟩, scenarioDoc,
          some (Json.obj [("a", Json.obj [("b", Json.str "secret")])])⟩,
        [], false⟩).1 = .error .fileNotFound ∧
    (SopsFs.writeFile jsonCfg specTool ["a", "b"] "x" true false
      ⟨scenarioDoc, ⟨1, 2, 30⟩,
        some ⟨⟨1, 2, 30⟩, scenarioDoc,
          some (Json.obj [("a", Json.obj [("b", Json.str "secret")])])⟩,
        [], false⟩).1 = .error .fileExists := by
  constructor
  · exact (claim_C4_writeFile_prechecks jsonCfg specTool
      ⟨scenarioDoc, ⟨1, 2, 30⟩,
        some ⟨⟨1, 2, 30⟩, scenarioDoc,
          some (Json.obj [("a", Json.obj [("b", Json.str "secret")])])⟩,
        [], false⟩
      ⟨⟨1, 2, 30⟩, scenarioDoc,
        some (Json.obj [("a", Json.obj [("b", Json.str "secret")])])⟩
      [("a", Json.obj [("b", Json.str "secret")])]
      ["missing"] "x" false true rfl rfl).1 ⟨rfl, rfl⟩
  · exact (claim_C4_writeFile_prechecks jsonCfg specTool
      ⟨scenarioDoc, ⟨1, 2, 30⟩,
        some ⟨⟨1, 2, 30⟩, scenarioDoc,
          some (Json.obj [("a", Json.obj [("b", Json.str "secret")])])⟩,
        [], false⟩
      ⟨⟨1, 2, 30⟩, scenarioDoc,
        some (Json.obj [("a", Json.obj [("b", Json.str "secret")])])⟩
      [("a", Json.obj [("b", Json.str "secret")])]
      ["a", "b"] "x" true false rfl rfl).2.2.1 ⟨rfl, rfl, rfl⟩

/-! ## Failure atomicity (C1) -/

theorem pres_refl (st : FsState) : CachePreserved st st :=
  ⟨rfl, fun _ hs => hs⟩

theorem pres_trans {a b c : FsState} (h1 : CachePreserved a b) (h2 : CachePreserved b c) :
    CachePreserved a c :=
  ⟨h2.1.trans h1.1, fun s hs => h2.2 s (h1.2 s hs)⟩

theorem getTree_pres {cfg : SopsCfg} {tool : SopsTool} {st : FsState}
    {r : Except FsError Snapshot} {st1 : FsState}
    (h : SopsFs.getTree cfg tool st = (r, st1)) : CachePreserved st st1 :=
  ⟨(getTree_preserves cfg tool st h).1, (getTree_preserves cfg tool st h).2.2.2.2⟩

theorem getTreeNode_pres {cfg : SopsCfg} {tool : SopsTool} {path : List String}
    {st : FsState} {r : Except FsError TreeNode} {st1 : FsState}
    (h : SopsFs.getTreeNode cfg tool path st = (r, st1)) : CachePreserved st st1 := by
  unfold SopsFs.getTreeNode at h
  rcases hg : SopsFs.getTree cfg tool st with ⟨rG, stG⟩
  rw [hg] at h
  rcases rG with eG | snapG <;> dsimp only at h <;> injection h with h1 h2 <;> subst h2 <;>
    exact getTree_pres hg

theorem addChangeEvent_pres (path : List String) (t : FileChangeType) (st : FsState) :
    CachePreserved st (SopsFs.addChangeEvent path t st) :=
  ⟨rfl, fun _ hs => hs⟩

theorem sopsCmdSet_pres {cfg : SopsCfg} {tool : SopsTool} {file : String}
    {path : List String} {value : Json} {st : FsState} {r : Except FsError String}
    {st1 : FsState} (h : SopsFs.sopsCmdSet cfg tool file path value st = (r, st1)) :
    CachePreserved st st1 := by
  unfold SopsFs.sopsCmdSet at h
  by_cases hb : cfg.sopsFormat = SopsFormat.binary
  · rw [if_pos hb] at h
    injection h with h1 h2
    subst h2
    exact pres_refl st
  · rw [if_neg hb] at h
    rcases hg : SopsFs.getTree cfg tool st with ⟨rG, stG⟩
    rw [hg] at h
    rcases rG with eG | snapG <;> dsimp only at h
    · injection h with h1 h2
      subst h2
      exact getTree_pres hg
    · rcases hsp : pathToSopsSetPath path
          (match snapG.tree with | some t => t | none => Json.obj []) with e2 | sp <;>
        rw [hsp] at h <;> dsimp only at h
      · injection h with h1 h2
        subst h2
        exact getTree_pres hg
      · rcases hset : tool.set file path value with _ | c <;> rw [hset] at h <;>
          dsimp only at h <;> injection h with h1 h2 <;> subst h2 <;> exact getTree_pres hg

theorem writeFileMutate_pres {cfg : SopsCfg} {tool : SopsTool} {path : List String}
    {content : String} {b : Bool} {st : FsState} {e : FsError} {stFinal : FsState}
    (h : writeFileMutate cfg tool path content b st = (.error e, stFinal)) :
    CachePreserved st stFinal := by
  unfold writeFileMutate at h
  by_cases hd : cfg.isDataFile path = true
  · rw [if_pos hd] at h
    rcases hw : tool.write st.stable content with _ | c <;> rw [hw] at h <;> dsimp only at h
    · injection h with h1 h2
      subst h2
      exact pres_refl st
    · exact absurd h (by simp)
  · rw [if_neg hd] at h
    rcases hs : SopsFs.sopsCmdSet cfg tool st.stable path (.str content) st with ⟨rS, st3⟩
    rw [hs] at h
    rcases rS with eS | temp1 <;> dsimp only at h
    · injection h with h1 h2
      subst h2
      exact sopsCmdSet_pres hs
    · exact absurd h (by simp)

theorem writeFile_steps (cfg : SopsCfg) (tool : SopsTool) (path : List String)
    (content : String) (create overwrite : Bool) (st : FsState) :
    SopsFs.writeFile cfg tool path content create overwrite st =
      (let pr := match SopsFs.getTreeNode cfg tool path.dropLast st with
                 | (.ok n, s) => (some n, s)
                 | (.error _, s) => (none, s)
       let nr := match pr.1 with
                 | some _ =>
                   (match SopsFs.getTreeNode cfg tool path pr.2 with
                    | (.ok n, s) => (some n, s)
                    | (.error _, s) => (none, s))
                 | none => (none, pr.2)
       if nr.1.isNone && !create then (.error .fileNotFound, nr.2)
       else if pr.1.isNone && create then (.error .fileNotFound, nr.2)
       else if nr.1.isSome && create && !overwrite then (.error .fileExists, nr.2)
       else writeFileMutate cfg tool path content nr.1.isSome nr.2) := by
  unfold SopsFs.writeFile writeFileMutate
  rfl

/-- **C1** (amended): for every mutating operation — `createDirectory`,
`writeFile`, `delete`, `rename` — and every failure occurring before the
final overwrite of the stable encrypted document (the modelled final copy
cannot itself fail, so every error return is such a failure), the stable
document's bytes are unchanged and any previously-cached snapshot is still
cached unchanged when the call returns the error; every intermediate
set-mutation touched only the private temporary copy.  (A failed call may
still populate an empty cache with a snapshot derived from the unchanged
document, and may leave change events buffered for sub-steps that
succeeded.) -/
theorem claim_C1_failure_preserves (cfg : SopsCfg) (tool : SopsTool) :
    (∀ path st e stFinal,
      SopsFs.createDirectory cfg tool path st = (.error e, stFinal) →
      stFinal.stable = st.stable ∧ ∀ s, st.cache = some s → stFinal.cache = some s) ∧
    (∀ path content create overwrite st e stFinal,
      SopsFs.writeFile cfg tool path content create overwrite st = (.error e, stFinal) →
      stFinal.stable = st.stable ∧ ∀ s, st.cache = some s → stFinal.cache = some s) ∧
    (∀ path st e stFinal,
      SopsFs.delete cfg tool path st = (.error e, stFinal) →
      stFinal.stable = st.stable ∧ ∀ s, st.cache = some s → stFinal.cache = some s) ∧
    (∀ oldPath newPath overwrite st e stFinal,
      SopsFs.rename cfg tool oldPath newPath overwrite st = (.error e, stFinal) →
      stFinal.stable = st.stable ∧ ∀ s, st.cache = some s → stFinal.cache = some s) := by
  refine ⟨?_, ?_, ?_, ?_⟩
  · intro path st e stFinal h
    unfold SopsFs.createDirectory at h
    dsimp only at h
    rcases hs : SopsFs.sopsCmdSet cfg tool st.stable path (Json.obj []) st with ⟨r, st1⟩
    rw [hs] at h
    rcases r with e2 | temp1 <;> dsimp only at h
    · injection h with h1 h2
      subst h2
      exact sopsCmdSet_pres hs
    · exact absurd h (by simp)
  · intro path content create overwrite st e stFinal h
    rw [writeFile_steps] at h
    rcases hp : SopsFs.getTreeNode cfg tool path.dropLast st with ⟨rP, st1⟩
    rw [hp] at h
    have pres1 : CachePreserved st st1 := getTreeNode_pres hp
    rcases rP with eP | nP <;> dsimp only at h
    · split at h
      · injection h with h1 h2
        subst h2
        exact pres1
      · split at h
        · injection h with h1 h2
          subst h2
          exact pres1
        · split at h
          · injection h with h1 h2
            subst h2
            exact pres1
          · exact pres_trans pres1 (writeFileMutate_pres h)
    · rcases hn : SopsFs.getTreeNode cfg tool path st1 with ⟨rN, st2⟩
      rw [hn] at h
      have pres2 : CachePreserved st st2 := pres_trans pres1 (getTreeNode_pres hn)
      rcases rN with eN | nN <;> dsimp only at h <;>
        (split at h
         · injection h with h1 h2
           subst h2
           exact pres2
         · split at h
           · injection h with h1 h2
             subst h2
             exact pres2
           · split at h
             · injection h with h1 h2
               subst h2
               exact pres2
             · exact pres_trans pres2 (writeFileMutate_pres h))
  · intro path st e stFinal h
    unfold SopsFs.delete at h
    rcases hg : SopsFs.getTreeNode cfg tool path st with ⟨rG, st1⟩
    rw [hg] at h
    have pres1 : CachePreserved st st1 := getTreeNode_pres hg
    rcases rG with eG | node <;> dsimp only at h
    · injection h with h1 h2
      subst h2
      exact pres1
    · by_cases hd : cfg.isDataFile path = true
      · rw [if_pos hd] at h
        injection h with h1 h2
        subst h2
        exact pres1
      · rw [if_neg hd] at h
        rcases hs : SopsFs.sopsCmdSet cfg tool st1.stable path (.str DELETED_MARKER) st1
            with ⟨rS, st2⟩
        rw [hs] at h
        have pres2 : CachePreserved st st2 := pres_trans pres1 (sopsCmdSet_pres hs)
        rcases rS with eS | temp1 <;> dsimp only at h
        · injection h with h1 h2
          subst h2
          exact pres2
        · have pres3 : CachePreserved st (SopsFs.addChangeEvent path .deleted st2) :=
            pres_trans pres2 (addChangeEvent_pres path .deleted st2)
          rcases hdc : tool.decrypt temp1 with _ | raw <;> rw [hdc] at h <;> dsimp only at h
          · injection h with h1 h2
            subst h2
            exact pres3
          · rcases hdm : deleteMarker cfg.sopsFormat raw with eD | stripped <;>
              rw [hdm] at h <;> dsimp only at h
            · injection h with h1 h2
              subst h2
              exact pres3
            · rcases hw : tool.write temp1 stripped with _ | temp2 <;> rw [hw] at h <;>
                dsimp only at h
              · injection h with h1 h2
                subst h2
                exact pres3
              · exact absurd h (by simp)
  · intro oldPath newPath overwrite st e stFinal h
    unfold SopsFs.rename at h
    rcases hg : SopsFs.getTree cfg tool st with ⟨rG, st1⟩
    rw [hg] at h
    have pres1 : CachePreserved st st1 := getTree_pres hg
    rcases rG with eG | snap0 <;> dsimp only at h
    · injection h with h1 h2
      subst h2
      exact pres1
    · rcases ho : SopsFs.getTreeNode cfg tool oldPath st1 with ⟨rO, st2⟩
      rw [ho] at h
      have pres2 : CachePreserved st st2 := pres_trans pres1 (getTreeNode_pres ho)
      rcases rO with eO | nodeO <;> dsimp only at h
      · injection h with h1 h2
        subst h2
        exact pres2
      · rcases hn : SopsFs.getTreeNode cfg tool newPath st2 with ⟨rN, st3⟩
        rw [hn] at h
        have pres3 : CachePreserved st st3 := pres_trans pres2 (getTreeNode_pres hn)
        rcases rN with eN | nodeN <;> dsimp only at h <;>
          (split at h
           · injection h with h1 h2
             subst h2
             exact pres3
           · split at h
             · injection h with h1 h2
               subst h2
               exact pres3
             · rcases htr : snap0.tree with _ | tree <;> rw [htr] at h <;> dsimp only at h
               · injection h with h1 h2
                 subst h2
                 exact pres3
               · rcases hge : objGet tree oldPath with _ | value <;> rw [hge] at h <;>
                   dsimp only at h
                 · injection h with h1 h2
                   subst h2
                   exact pres3
                 · rcases hs1 : SopsFs.sopsCmdSet cfg tool st3.stable newPath value st3
                       with ⟨rS1, st4⟩
                   rw [hs1] at h
                   have pres4 : CachePreserved st st4 :=
                     pres_trans pres3 (sopsCmdSet_pres hs1)
                   rcases rS1 with eS1 | temp1 <;> dsimp only at h
                   · injection h with h1 h2
                     subst h2
                     exact pres4
                   · rcases hs2 : SopsFs.sopsCmdSet cfg tool temp1 oldPath
                         (.str DELETED_MARKER) st4 with ⟨rS2, st5⟩
                     rw [hs2] at h
                     have pres5 : CachePreserved st st5 :=
                       pres_trans pres4 (sopsCmdSet_pres hs2)
                     rcases rS2 with eS2 | temp2 <;> dsimp only at h
                     · injection h with h1 h2
                       subst h2
                       exact pres5
                     · rcases hdc : tool.decrypt temp2 with _ | raw <;> rw [hdc] at h <;>
                         dsimp only at h
                       · injection h with h1 h2
                         subst h2
                         exact pres_trans pres5
                           (pres_trans (addChangeEvent_pres oldPath .deleted st5)
                             (addChangeEvent_pres newPath _ _))
                       · rcases hdm : deleteMarker cfg.sopsFormat raw with eD | stripped <;>
                           rw [hdm] at h <;> dsimp only at h
                         · injection h with h1 h2
                           subst h2
                           exact pres_trans pres5
                             (pres_trans (addChangeEvent_pres oldPath .deleted st5)
                               (addChangeEvent_pres newPath _ _))
                         · rcases hw : tool.write temp2 stripped with _ | temp3 <;>
                             rw [hw] at h <;> dsimp only at h
                           · injection h with h1 h2
                             subst h2
                             exact pres_trans pres5
                               (pres_trans (addChangeEvent_pres oldPath .deleted st5)
                                 (addChangeEvent_pres newPath _ _))
                           · exact absurd h (by simp))

/-- **C1** (counterexample): a `writeFile` call that fails its pre-check
with `FileNotFound` on a fresh engine still populates the previously-empty
snapshot cache, so "the cached snapshot is unchanged after the call" does
not hold as stated for an absent cache. -/
theorem claim_C1_counterexample :
    (SopsFs.writeFile jsonCfg specTool ["missing"] "x" false true scenarioState).1 =
      .error .fileNotFound ∧
    scenarioState.cache = none ∧
    (SopsFs.writeFile jsonCfg specTool ["missing"] "x" false true
        scenarioState).2.cache.isSome = true :=
  ⟨rfl, rfl, rfl⟩

/-- Witness for C1 (amended): a delete whose set-mutation fails leaves the
stable bytes and the cached snapshot of a warmed-up engine unchanged. -/
theorem claim_C1_failure_preserves_witness :
    (SopsFs.delete jsonCfg setFailTool ["a", "b"]
        ⟨scenarioDoc, ⟨1, 2, 30⟩,
          some ⟨⟨1, 2, 30⟩, scenarioDoc,
            some (Json.obj [("a", Json.obj [("b", Json.str "secret")])])⟩,
          [], false⟩).2.stable = scenarioDoc ∧
    (SopsFs.delete jsonCfg setFailTool ["a", "b"]
        ⟨scenarioDoc, ⟨1, 2, 30⟩,
          some ⟨⟨1, 2, 30⟩, scenarioDoc,
            some (Json.obj [("a", Json.obj [("b", Json.str "secret")])])⟩,
          [], false⟩).2.cache =
      some ⟨⟨1, 2, 30⟩, scenarioDoc,
        some (Json.obj [("a", Json.obj [("b", Json.str "secret")])])⟩ := by
  have base := (claim_C1_failure_preserves jsonCfg setFailTool).2.2.1 ["a", "b"]
    ⟨scenarioDoc, ⟨1, 2, 30⟩,
      some ⟨⟨1, 2, 30⟩, scenarioDoc,
        some (Json.obj [("a", Json.obj [("b", Json.str "secret")])])⟩,
      [], false⟩
    .toolError
    (SopsFs.delete jsonCfg setFailTool ["a", "b"]
      ⟨scenarioDoc, ⟨1, 2, 30⟩,
        some ⟨⟨1, 2, 30⟩, scenarioDoc,
          some (Json.obj [("a", Json.obj [("b", Json.str "secret")])])⟩,
        [], false⟩).2
    rfl
  exact ⟨base.1, base.2 _ rfl⟩

/-! ## Write/read round-trip (C8) -/

theorem objGet_isSome_parts :
    ∀ (rest : List String) (t : Json) (pre : List String),
      (objGet t (pre ++ rest)).isSome = true →
      ∃ parts, pathToSopsSetPathGo t pre rest = .ok parts := by
  intro rest
  induction rest with
  | nil => intro t pre h; exact ⟨[], rfl⟩
  | cons k tl ih =>
    intro t pre h
    rw [objGet_append pre t (k :: tl)] at h
    rcases hw : objGet t pre with _ | w <;> rw [hw] at h
    · simp at h
    · have e1 : objGet w (k :: tl) =
          (match objGet w [k] with
           | some v => objGet v tl
           | none => none) := by
        simpa using objGet_append [k] w tl
      dsimp only at h
      rw [e1] at h
      rcases hv : objGet w [k] with _ | v <;> rw [hv] at h
      · simp at h
      · have e2 : objGet t (pre ++ [k]) = some v := by
          rw [objGet_append pre t [k], hw]
          exact hv
        have hrec : (objGet t ((pre ++ [k]) ++ tl)).isSome = true := by
          rw [objGet_append (pre ++ [k]) t tl, e2]
          exact h
        obtain ⟨parts, hparts⟩ := ih t (pre ++ [k]) hrec
        rcases w with _ | b | r | s | elems | fields
        · exact absurd hv (by simp [objGet])
        · exact absurd hv (by simp [objGet])
        · exact absurd hv (by simp [objGet])
        · exact absurd hv (by simp [objGet])
        · have hci : ∃ n, canonIndex k = some n := by
            rcases hci0 : canonIndex k with _ | n
            · rw [objGet_cons_arr_eq, hci0] at hv
              exact absurd hv (by simp)
            · exact ⟨n, rfl⟩
          obtain ⟨n, hci⟩ := hci
          exact ⟨("[" ++ Nat.repr n ++ "]") :: parts,
            by rw [setPathGo_cons_arr k tl hw, hci, hparts]⟩
        · exact ⟨("[\"" ++ k ++ "\"]") :: parts,
            by rw [setPathGo_cons_notarr k tl (by unfold isArrParent; rw [hw]), hparts]⟩

theorem objGet_setPath_ok {path : List String} {t : Json}
    (h : (objGet t path).isSome = true) : ∃ sp, pathToSopsSetPath path t = .ok sp := by
  obtain ⟨parts, hparts⟩ := objGet_isSome_parts path t [] (by simpa using h)
  exact ⟨String.join parts, by unfold pathToSopsSetPath; rw [hparts]⟩

theorem sopsCmdSet_eval_ok {cfg : SopsCfg} {tool : SopsTool} {file : String}
    {path : List String} {value : Json} {st : FsState} {snap : Snapshot} {tree : Json}
    {c2 : String} (hc : st.cache = some snap) (hb : cfg.sopsFormat ≠ SopsFormat.binary)
    (ht : snap.tree = some tree) (hsp : ∃ sp, pathToSopsSetPath path tree = .ok sp)
    (hset : tool.set file path value = some c2) :
    SopsFs.sopsCmdSet cfg tool file path value st = (.ok c2, st) := by
  obtain ⟨sp, hsp⟩ := hsp
  unfold SopsFs.sopsCmdSet
  rw [if_neg hb, getTree_cache_hit hc]
  dsimp only
  rw [ht]
  dsimp only
  rw [hsp]
  dsimp only
  rw [hset]

/-- **C8**: under the tool's set-mutation contract (setting a value at an
address makes the re-decrypted tree hold exactly that value there), writing
bytes `b` to an existing non-null leaf path of a structured document
succeeds and a subsequent read of that path returns exactly `b`'s text
form. -/
theorem claim_C8_write_read_roundtrip (cfg : SopsCfg) (tool : SopsTool) (st : FsState)
    (snap : Snapshot) (fields : List (String × Json)) (path : List String)
    (b c2 raw2 : String) (tree2 : Json) (create : Bool)
    (hc : st.cache = some snap) (ht : snap.tree = some (.obj fields))
    (hb : cfg.sopsFormat ≠ SopsFormat.binary) (hd : cfg.isDataFile path = false)
    (hp : ∃ v, objGet (.obj fields) path = some v ∧ treeValueToType v = .file ∧ v ≠ .null)
    (hset : tool.set st.stable path (.str b) = some c2)
    (hdec : tool.decrypt c2 = some raw2)
    (hjson : tool.decryptJson c2 = some tree2)
    (hget : objGet tree2 path = some (.str b)) :
    (SopsFs.writeFile cfg tool path b create true st).1 = .ok () ∧
    (SopsFs.readFile cfg tool path
      (SopsFs.writeFile cfg tool path b create true st).2).1 = .ok b := by
  obtain ⟨v, hpv, hv, hn⟩ := hp
  obtain ⟨s, hs⟩ := jsToString_total hv hn
  have hne : path ≠ [] := by
    rintro rfl
    obtain rfl : Json.obj fields = v := by simpa [objGet] using hpv
    simp [treeValueToType] at hv
  have hcoreN := getTreeNodeCore_leaf ht hd hpv hv hs hne
  have hres : resolves cfg snap path = true := by
    rw [resolves_true_iff]
    exact ⟨_, hcoreN⟩
  obtain ⟨nP, hcoreP⟩ :=
    (resolves_true_iff cfg snap path.dropLast).mp (resolves_dropLast ht hres)
  have hW : SopsFs.writeFile cfg tool path b create true st =
      (.ok (), SopsFs.applySopsChange c2 (SopsFs.addChangeEvent path .changed st)) := by
    rw [writeFile_eval cfg tool st snap path b create true hc, hcoreN, hcoreP]
    dsimp only
    simp only [Option.isNone_some, Bool.false_and, Bool.false_eq_true, if_false,
      Option.isSome_some, Bool.true_and, Bool.not_true, Bool.and_false]
    unfold writeFileMutate
    rw [if_neg (by simp [hd]),
      sopsCmdSet_eval_ok hc hb ht (objGet_setPath_ok (by rw [hpv]; rfl)) hset]
    rfl
  refine ⟨by rw [hW], ?_⟩
  rw [hW]
  have hT : SopsFs.getTree cfg tool
      (SopsFs.applySopsChange c2 (SopsFs.addChangeEvent path .changed st)) =
      (.ok ⟨st.stableStat, raw2, some tree2⟩,
       { (SopsFs.applySopsChange c2 (SopsFs.addChangeEvent path .changed st)) with
          cache := some ⟨st.stableStat, raw2, some tree2⟩ }) := by
    unfold SopsFs.getTree SopsFs.applySopsChange SopsFs.invalidateTreeCache
      SopsFs.addChangeEvent
    dsimp only
    rw [hdec]
    dsimp only
    rw [if_neg hb, hjson]
  unfold SopsFs.readFile SopsFs.getTreeNode
  rw [hT]
  dsimp only
  rw [@getTreeNodeCore_leaf _ _ tree2 _ _ _ rfl hd hget rfl rfl hne]

/-- Witness for C8: writing `"newv"` over the existing leaf `/a/b` of the
scenario document through `specTool` succeeds and reading it back returns
`"newv"`. -/
theorem claim_C8_write_read_roundtrip_witness :
    (SopsFs.writeFile jsonCfg specTool ["a", "b"] "newv" false true
      ⟨scenarioDoc, ⟨1, 2, 30⟩,
        some ⟨⟨1, 2, 30⟩, scenarioDoc,
          some (Json.obj [("a", Json.obj [("b", Json.str "secret")])])⟩,
        [], false⟩).1 = .ok () ∧
    (SopsFs.readFile jsonCfg specTool ["a", "b"]
      (SopsFs.writeFile jsonCfg specTool ["a", "b"] "newv" false true
        ⟨scenarioDoc, ⟨1, 2, 30⟩,
          some ⟨⟨1, 2, 30⟩, scenarioDoc,
            some (Json.obj [("a", Json.obj [("b", Json.str "secret")])])⟩,
          [], false⟩).2).1 = .ok "newv" :=
  claim_C8_write_read_roundtrip jsonCfg specTool
    ⟨scenarioDoc, ⟨1, 2, 30⟩,
      some ⟨⟨1, 2, 30⟩, scenarioDoc,
        some (Json.obj [("a", Json.obj [("b", Json.str "secret")])])⟩,
      [], false⟩
    ⟨⟨1, 2, 30⟩, scenarioDoc,
      some (Json.obj [("a", Json.obj [("b", Json.str "secret")])])⟩
    [("a", Json.obj [("b", Json.str "secret")])]
    ["a", "b"] "newv" "\x7b\"a\":\x7b\"b\":\"newv\"\x7d\x7d"
    "\x7b\"a\":\x7b\"b\":\"newv\"\x7d\x7d"
    (Json.obj [("a", Json.obj [("b", Json.str "newv")])]) false
    rfl rfl (by decide) rfl
    ⟨Json.str "secret", rfl, rfl, by intro hcon; cases hcon⟩
    rfl rfl rfl rfl

/-! ## Namespace address round-trip (C9) -/

theorem b64_charVal_fin : ∀ n : Fin 64, base64urlCharVal (base64urlChar n.val) = n.val := by
  decide

theorem b64_charVal {n : Nat} (h : n < 64) :
    base64urlCharVal (base64urlChar n) = n :=
  b64_charVal_fin ⟨n, h⟩

theorem b64_char_ne_slash_fin : ∀ n : Fin 64, base64urlChar n.val ≠ '/' := by
  decide

theorem b64_char_ne_slash {n : Nat} (h : n < 64) : base64urlChar n ≠ '/' :=
  b64_char_ne_slash_fin ⟨n, h⟩

theorem base64url_roundtrip :
    ∀ bs : List Nat, (∀ b ∈ bs, b < 256) → base64urlDecode (base64urlEncode bs) = bs
  | [], _ => rfl
  | [b1], h => by
    have h1 : b1 < 256 := h b1 (by simp)
    show [base64urlCharVal (base64urlChar (b1 / 4)) * 4 +
        base64urlCharVal (base64urlChar (b1 % 4 * 16)) / 16] = [b1]
    rw [b64_charVal (by omega), b64_charVal (by omega)]
    congr 1
    omega
  | [b1, b2], h => by
    have h1 : b1 < 256 := h b1 (by simp)
    have h2 : b2 < 256 := h b2 (by simp)
    show [base64urlCharVal (base64urlChar (b1 / 4)) * 4 +
        base64urlCharVal (base64urlChar (b1 % 4 * 16 + b2 / 16)) / 16,
      base64urlCharVal (base64urlChar (b1 % 4 * 16 + b2 / 16)) % 16 * 16 +
        base64urlCharVal (base64urlChar (b2 % 16 * 4)) / 4] = [b1, b2]
    rw [b64_charVal (by omega), b64_charVal (by omega), b64_charVal (by omega)]
    simp only [List.cons.injEq, and_true]
    exact ⟨by omega, by omega⟩
  | b1 :: b2 :: b3 :: rest, h => by
    have h1 : b1 < 256 := h b1 (by simp)
    have h2 : b2 < 256 := h b2 (by simp)
    have h3 : b3 < 256 := h b3 (by simp)
    show (base64urlCharVal (base64urlChar (b1 / 4)) * 4 +
        base64urlCharVal (base64urlChar (b1 % 4 * 16 + b2 / 16)) / 16) ::
      (base64urlCharVal (base64urlChar (b1 % 4 * 16 + b2 / 16)) % 16 * 16 +
        base64urlCharVal (base64urlChar (b2 % 16 * 4 + b3 / 64)) / 4) ::
      (base64urlCharVal (base64urlChar (b2 % 16 * 4 + b3 / 64)) % 4 * 64 +
        base64urlCharVal (base64urlChar (b3 % 64))) ::
      base64urlDecode (base64urlEncode rest) = b1 :: b2 :: b3 :: rest
    rw [b64_charVal (by omega), b64_charVal (by omega), b64_charVal (by omega),
      b64_charVal (by omega),
      base64url_roundtrip rest (fun b hb => h b (by simp [hb]))]
    simp only [List.cons.injEq, and_true]
    exact ⟨by omega, by omega, by omega⟩

theorem base64url_encode_ne_slash :
    ∀ bs : List Nat, (∀ b ∈ bs, b < 256) → ∀ c ∈ base64urlEncode bs, c ≠ '/'
  | [], _ => by simp [base64urlEncode]
  | [b1], h => by
    have h1 : b1 < 256 := h b1 (by simp)
    intro c hc
    simp only [base64urlEncode, List.mem_cons, List.mem_singleton, List.not_mem_nil,
      or_false] at hc
    rcases hc with rfl | rfl
    · exact b64_char_ne_slash (by omega)
    · exact b64_char_ne_slash (by omega)
  | [b1, b2], h => by
    have h1 : b1 < 256 := h b1 (by simp)
    have h2 : b2 < 256 := h b2 (by simp)
    intro c hc
    simp only [base64urlEncode, List.mem_cons, List.not_mem_nil, or_false] at hc
    rcases hc with rfl | rfl | rfl
    · exact b64_char_ne_slash (by omega)
    · exact b64_char_ne_slash (by omega)
    · exact b64_char_ne_slash (by omega)
  | b1 :: b2 :: b3 :: rest, h => by
    have h1 : b1 < 256 := h b1 (by simp)
    have h2 : b2 < 256 := h b2 (by simp)
    have h3 : b3 < 256 := h b3 (by simp)
    intro c hc
    simp only [base64urlEncode, List.mem_cons] at hc
    rcases hc with rfl | rfl | rfl | rfl | hc
    · exact b64_char_ne_slash (by omega)
    · exact b64_char_ne_slash (by omega)
    · exact b64_char_ne_slash (by omega)
    · exact b64_char_ne_slash (by omega)
    · exact base64url_encode_ne_slash rest (fun b hb => h b (by simp [hb])) c hc

theorem base64url_encode_ne_nil {bs : List Nat} (h : bs ≠ []) :
    base64urlEncode bs ≠ [] := by
  rcases bs with _ | ⟨b1, _ | ⟨b2, _ | ⟨b3, rest⟩⟩⟩
  · exact absurd rfl h
  · simp [base64urlEncode]
  · simp [base64urlEncode]
  · simp [base64urlEncode]

theorem splitOnSlashGo_cons_eq (c : Char) (rest acc : List Char) :
    splitOnSlashGo (c :: rest) acc =
      if c = '/' then acc.reverse :: splitOnSlashGo rest []
      else splitOnSlashGo rest (c :: acc) := rfl

theorem splitOnSlashGo_no_slash :
    ∀ (l acc : List Char), (∀ c ∈ l, c ≠ '/') →
      splitOnSlashGo l acc = [acc.reverse ++ l] := by
  intro l
  induction l with
  | nil => intro acc _; simp [splitOnSlashGo]
  | cons c tl ih =>
    intro acc hl
    rw [splitOnSlashGo_cons_eq]
    rw [if_neg (by simpa using hl c (by simp))]
    rw [ih (c :: acc) (fun x hx => hl x (by simp [hx]))]
    simp

theorem splitOnSlashGo_break :
    ∀ (l acc rest : List Char), (∀ c ∈ l, c ≠ '/') →
      splitOnSlashGo (l ++ '/' :: rest) acc =
        (acc.reverse ++ l) :: splitOnSlashGo rest [] := by
  intro l
  induction l with
  | nil =>
    intro acc rest _
    show splitOnSlashGo ('/' :: rest) acc = _
    rw [splitOnSlashGo_cons_eq]
    rw [if_pos rfl]
    simp
  | cons c tl ih =>
    intro acc rest hl
    show splitOnSlashGo (c :: (tl ++ '/' :: rest)) acc = _
    rw [splitOnSlashGo_cons_eq]
    rw [if_neg (by simpa using hl c (by simp))]
    rw [ih (c :: acc) rest (fun x hx => hl x (by simp [hx]))]
    simp

theorem splitOnSlashGo_joinSlash :
    ∀ segs : List (List Char), segs ≠ [] → (∀ s ∈ segs, '/' ∉ s) →
      splitOnSlashGo (joinSlash segs) [] = segs := by
  intro segs
  induction segs with
  | nil => intro hne _; exact absurd rfl hne
  | cons s tl ih =>
    intro _ hs
    rcases tl with _ | ⟨s2, tl2⟩
    · show splitOnSlashGo s [] = [s]
      rw [splitOnSlashGo_no_slash s []
        (fun c hc => by
          intro hcon
          exact (hs s (by simp)) (hcon ▸ hc))]
      simp
    · show splitOnSlashGo (s ++ '/' :: joinSlash (s2 :: tl2)) [] = s :: s2 :: tl2
      rw [splitOnSlashGo_break s [] (joinSlash (s2 :: tl2))
        (fun c hc => by
          intro hcon
          exact (hs s (by simp)) (hcon ▸ hc))]
      rw [ih (by simp) (fun x hx => hs x (by simp [hx]))]
      simp

theorem bang_isEmpty_of_ne_nil {a : List Char} (ha : a ≠ []) :
    (!a.isEmpty) = true := by
  cases a with
  | nil => exact absurd rfl ha
  | cons c tl => rfl

theorem parseUri_eq (s : String) :
    SopsFsProvider.parseUri s =
      match (splitOnSlashGo s.data []).filter (fun seg => !seg.isEmpty) with
      | [] => Except.error FsError.fileNotFound
      | uriEncoded :: rest =>
        Except.ok (base64urlDecode uriEncoded, String.mk ('/' :: joinSlash rest)) :=
  rfl

/-- C9: composing a namespace address from a document identity (a byte
sequence) and an optional sub-path, then parsing it, recovers exactly the
identity and the sub-path: with no sub-path the parsed sub-path is the root
`"/"`, and with a sub-path built from nonempty slash-free segments the
parsed sub-path is that very string.  The identity must be a nonempty
sequence of bytes (values < 256). -/
theorem claim_C9_uri_roundtrip (d : List Nat) (hd : d ≠ [])
    (hb : ∀ b ∈ d, b < 256) (segs : List (List Char))
    (hsegs : ∀ s ∈ segs, s ≠ [] ∧ '/' ∉ s) :
    SopsFsProvider.parseUri (SopsFsProvider.composeUri d none) =
      .ok (d, "/") ∧
    SopsFsProvider.parseUri
        (SopsFsProvider.composeUri d (some (String.mk ('/' :: joinSlash segs)))) =
      .ok (d, String.mk ('/' :: joinSlash segs)) := by
  have henc_ne : base64urlEncode d ≠ [] := base64url_encode_ne_nil hd
  have henc_ns : ∀ c ∈ base64urlEncode d, c ≠ '/' := base64url_encode_ne_slash d hb
  have hkeep : (!(base64urlEncode d).isEmpty) = true := bang_isEmpty_of_ne_nil henc_ne
  constructor
  · rw [parseUri_eq]
    have h0 : (SopsFsProvider.composeUri d none).data = base64urlEncode d := by
      show base64urlEncode d ++ ([] : List Char) = base64urlEncode d
      exact List.append_nil _
    rw [h0, splitOnSlashGo_no_slash _ [] henc_ns]
    simp only [List.reverse_nil, List.nil_append]
    rw [List.filter_cons, if_pos hkeep, List.filter_nil]
    dsimp only
    rw [base64url_roundtrip d hb]
    rfl
  · rw [parseUri_eq]
    have h1 : (SopsFsProvider.composeUri d
          (some (String.mk ('/' :: joinSlash segs)))).data
        = base64urlEncode d ++ '/' :: joinSlash segs := rfl
    rw [h1, splitOnSlashGo_break _ [] _ henc_ns]
    simp only [List.reverse_nil, List.nil_append]
    rcases segs with _ | ⟨s0, segs2⟩
    · rw [show splitOnSlashGo (joinSlash ([] : List (List Char))) [] = [[]] from rfl]
      rw [List.filter_cons, if_pos hkeep, List.filter_cons,
        if_neg (by decide), List.filter_nil]
      dsimp only
      rw [base64url_roundtrip d hb]
    · rw [splitOnSlashGo_joinSlash (s0 :: segs2) (by simp)
        (fun s hs => (hsegs s hs).2)]
      rw [List.filter_cons, if_pos hkeep,
        List.filter_eq_self.mpr
          (fun a ha => bang_isEmpty_of_ne_nil (hsegs a ha).1)]
      dsimp only
      rw [base64url_roundtrip d hb]

theorem claim_C9_uri_roundtrip_witness :
    SopsFsProvider.parseUri (SopsFsProvider.composeUri [102, 105, 108] none) =
      .ok ([102, 105, 108], "/") ∧
    SopsFsProvider.parseUri
        (SopsFsProvider.composeUri [102, 105, 108]
          (some (String.mk ('/' :: joinSlash [['a'], ['b']])))) =
      .ok ([102, 105, 108], String.mk ('/' :: joinSlash [['a'], ['b']])) :=
  claim_C9_uri_roundtrip [102, 105, 108] (by decide) (by decide)
    [['a'], ['b']] (by decide)

/-! ## Delete-marker stripping (C6) -/

theorem containsSeq_of_head {n : List Char} :
    ∀ {s : List Char}, n <+: s → containsSeq n s = true := by
  intro s h
  cases s with
  | nil => simpa [containsSeq, List.isPrefixOf_iff_prefix] using h
  | cons c r =>
    simp only [containsSeq, List.isPrefixOf_iff_prefix, Bool.or_eq_true, decide_eq_true_eq]
    exact Or.inl h

theorem containsSeq_of_inside {n s : List Char} (h : n <:+: s) :
    containsSeq n s = true := by
  obtain ⟨p, t, rfl⟩ := h
  induction p with
  | nil => exact containsSeq_of_head ⟨t, by simp⟩
  | cons c p ih =>
    show containsSeq n (c :: (p ++ n ++ t)) = true
    have hstep : containsSeq n (c :: (p ++ n ++ t)) =
        (n.isPrefixOf (c :: (p ++ n ++ t)) || containsSeq n (p ++ n ++ t)) := rfl
    rw [hstep, ih, Bool.or_true]

theorem inside_of_containsSeq {n : List Char} :
    ∀ {s : List Char}, containsSeq n s = true → n <:+: s := by
  intro s
  induction s with
  | nil =>
    intro h
    simp only [containsSeq, List.isPrefixOf_iff_prefix] at h
    exact h.isInfix
  | cons c r ih =>
    intro h
    simp only [containsSeq, List.isPrefixOf_iff_prefix, Bool.or_eq_true,
      decide_eq_true_eq] at h
    rcases h with h | h
    · exact h.isInfix
    · exact (ih h).trans (List.suffix_cons c r).isInfix

theorem containsSeq_false_mono {n s t : List Char} (hts : t <:+: s)
    (h : containsSeq n s = false) : containsSeq n t = false := by
  cases hc : containsSeq n t
  · rfl
  · rw [containsSeq_of_inside ((inside_of_containsSeq hc).trans hts)] at h
    cases h

theorem skipWs_suffix : ∀ s : List Char, skipWs s <:+ s
  | [] => List.suffix_refl []
  | c :: rest => by
    show (if isJsWs c then skipWs rest else c :: rest) <:+ c :: rest
    split
    · exact (skipWs_suffix rest).trans (List.suffix_cons c rest)
    · exact List.suffix_refl _

theorem expectLit_front {lit s r : List Char} (h : expectLit lit s = some r) :
    lit <+: s := by
  unfold expectLit at h
  split at h
  · exact List.isPrefixOf_iff_prefix.mp (by assumption)
  · cases h

theorem matchKeyGroup_suffix {s r : List Char} (h : matchKeyGroup s = some r) :
    r <:+ s := by
  unfold matchKeyGroup at h
  split at h
  case h_2 => cases h
  case h_1 rest heq =>
    dsimp only at h
    split at h
    · cases h
    · split at h
      case h_2 => cases h
      case h_1 rest3 heq2 =>
        split at h
        case h_2 => cases h
        case h_1 rest4 heq3 =>
          injection h with h
          subst h
          have s1a : rest4 <:+ skipWs rest3 := by
            rw [heq3]; exact List.suffix_cons ':' rest4
          have s1 : rest4 <:+ rest3 := s1a.trans (skipWs_suffix rest3)
          have s2b : ('"' :: rest3) <:+ rest := by
            rw [← heq2]; exact List.drop_suffix _ rest
          have s2 : rest3 <:+ rest := (List.suffix_cons '"' rest3).trans s2b
          have s3a : rest <:+ skipWs s := by
            rw [heq]; exact List.suffix_cons '"' rest
          have s3 : rest <:+ s := s3a.trans (skipWs_suffix s)
          exact (s1.trans s2).trans s3

theorem marker_inside_of_quoted {u : List Char} (h : quotedMarker <+: u) :
    DELETED_MARKER.data <:+: u := by
  have hm : DELETED_MARKER.data <:+: quotedMarker :=
    ⟨['"'], ['"'], by simp [quotedMarker]⟩
  exact hm.trans h.isInfix

theorem marker_inside_of_matchAfterComma {s : List Char} {b : Bool} {r : List Char}
    (h : matchAfterComma s = some (b, r)) : DELETED_MARKER.data <:+: s := by
  unfold matchAfterComma at h
  dsimp only at h
  rcases hk : matchKeyGroup s with _ | k
  · rw [hk] at h
    dsimp only at h
    rcases he : expectLit quotedMarker (skipWs s) with _ | v
    · rw [he] at h; cases h
    · exact (marker_inside_of_quoted (expectLit_front he)).trans
        (skipWs_suffix s).isInfix
  · rw [hk] at h
    dsimp only at h
    rcases he : expectLit quotedMarker (skipWs k) with _ | v
    · rw [he] at h
      dsimp only at h
      rcases he2 : expectLit quotedMarker (skipWs s) with _ | v2
      · rw [he2] at h; cases h
      · exact (marker_inside_of_quoted (expectLit_front he2)).trans
          (skipWs_suffix s).isInfix
    · have h1 : DELETED_MARKER.data <:+: skipWs k :=
        marker_inside_of_quoted (expectLit_front he)
      exact (h1.trans (skipWs_suffix k).isInfix).trans
        (matchKeyGroup_suffix hk).isInfix

theorem containsSeq_marker_of_matchAt {s : List Char} {x : Bool × Bool × List Char}
    (h : matchAt s = some x) : containsSeq DELETED_MARKER.data s = true := by
  rw [matchAt.eq_def] at h
  split at h
  case h_1 rest =>
    rcases hc : matchAfterComma rest with _ | ⟨c2, r⟩
    · rw [hc] at h; cases h
    · exact containsSeq_of_inside
        ((marker_inside_of_matchAfterComma hc).trans
          (List.suffix_cons ',' rest).isInfix)
  case h_2 =>
    rcases hc : matchAfterComma s with _ | ⟨c2, r⟩
    · rw [hc] at h; cases h
    · exact containsSeq_of_inside (marker_inside_of_matchAfterComma hc)

theorem containsSeq_cons_false {n : List Char} {c : Char} {r : List Char}
    (h : containsSeq n (c :: r) = false) : containsSeq n r = false := by
  have hstep : containsSeq n (c :: r) = (n.isPrefixOf (c :: r) || containsSeq n r) := rfl
  rw [hstep, Bool.or_eq_false_iff] at h
  exact h.2

theorem jsonStripGo_succ (fuel : Nat) (s : List Char) :
    jsonStripGo (fuel + 1) s =
      match matchAt s with
      | some (c1, c2, rest) =>
        (if c1 && c2 then [','] else []) ++ jsonStripGo fuel rest
      | none =>
        match s with
        | [] => []
        | c :: rest => c :: jsonStripGo fuel rest := rfl

theorem jsonStripGo_id :
    ∀ (fuel : Nat) (s : List Char), containsSeq DELETED_MARKER.data s = false →
      jsonStripGo fuel s = s
  | 0, _, _ => rfl
  | fuel + 1, s, h => by
    rw [jsonStripGo_succ]
    rcases hm : matchAt s with _ | x
    · dsimp only
      cases s with
      | nil => rfl
      | cons c r =>
        show c :: jsonStripGo fuel r = c :: r
        rw [jsonStripGo_id fuel r (containsSeq_cons_false h)]
    · rw [containsSeq_marker_of_matchAt hm] at h
      cases h

theorem lineStripGo_nil (fuel : Nat) : lineStripGo fuel [] = [] := by
  cases fuel <;> rfl

theorem lineStripGo_succ {s : List Char} (h : s ≠ []) (fuel : Nat) :
    lineStripGo (fuel + 1) s =
      (let seg := s.takeWhile (fun c => !isLineTerm c)
       let rest := s.drop seg.length
       if containsSeq DELETED_MARKER.data seg then
         match rest with
         | '\n' :: rest2 => lineStripGo fuel rest2
         | [] => []
         | t :: rest2 => t :: lineStripGo fuel rest2
       else
         match rest with
         | [] => seg
         | t :: rest2 => seg ++ t :: lineStripGo fuel rest2) := by
  cases s with
  | nil => exact absurd rfl h
  | cons c r => rfl

theorem drop_takeWhile_eq_dropWhile (p : Char → Bool) :
    ∀ s : List Char, s.drop (s.takeWhile p).length = s.dropWhile p
  | [] => rfl
  | c :: r => by
    by_cases hp : p c = true
    · rw [List.takeWhile_cons, if_pos hp, List.dropWhile_cons, if_pos hp]
      show r.drop (r.takeWhile p).length = r.dropWhile p
      exact drop_takeWhile_eq_dropWhile p r
    · rw [List.takeWhile_cons, if_neg hp, List.dropWhile_cons, if_neg hp]
      rfl

theorem takeWhile_append_stop (p : Char → Bool) :
    ∀ (l1 : List Char) (x : Char) (l2 : List Char),
      (∀ c ∈ l1, p c = true) → p x = false → (l1 ++ x :: l2).takeWhile p = l1
  | [], x, l2, _, hx => by
    show (x :: l2).takeWhile p = []
    rw [List.takeWhile_cons, if_neg (by simp [hx])]
  | c :: l1, x, l2, h, hx => by
    show ((c :: (l1 ++ x :: l2)).takeWhile p) = c :: l1
    rw [List.takeWhile_cons, if_pos (h c (by simp))]
    rw [takeWhile_append_stop p l1 x l2 (fun d hd => h d (by simp [hd])) hx]

theorem lineStripGo_id :
    ∀ (fuel : Nat) (s : List Char), containsSeq DELETED_MARKER.data s = false →
      lineStripGo fuel s = s
  | 0, _, _ => rfl
  | fuel + 1, s, h => by
    rcases s with _ | ⟨c, r⟩
    · rfl
    · rw [lineStripGo_succ (by simp) fuel]
      dsimp only
      have hseg : containsSeq DELETED_MARKER.data
          ((c :: r).takeWhile (fun ch => !isLineTerm ch)) = false :=
        containsSeq_false_mono (List.takeWhile_prefix _).isInfix h
      rw [if_neg (by simp [hseg])]
      rcases hrest : (c :: r).drop
          (((c :: r).takeWhile (fun ch => !isLineTerm ch)).length) with _ | ⟨t, rest2⟩
      · have hd : (c :: r).dropWhile (fun ch => !isLineTerm ch) = [] := by
          rw [← drop_takeWhile_eq_dropWhile]; exact hrest
        have hfull := List.takeWhile_append_dropWhile (fun ch => !isLineTerm ch) (c :: r)
        rw [hd, List.append_nil] at hfull
        exact hfull
      · have hsuf : (t :: rest2) <:+ (c :: r) := by
          rw [← hrest]; exact List.drop_suffix _ _
        have hrec : containsSeq DELETED_MARKER.data rest2 = false :=
          containsSeq_false_mono
            ((List.suffix_cons t rest2).trans hsuf).isInfix h
        show (c :: r).takeWhile (fun ch => !isLineTerm ch) ++
            t :: lineStripGo fuel rest2 = c :: r
        rw [lineStripGo_id fuel rest2 hrec]
        have hfull : (c :: r).takeWhile (fun ch => !isLineTerm ch) ++
            (c :: r).drop (((c :: r).takeWhile (fun ch => !isLineTerm ch)).length) =
            c :: r := by
          rw [drop_takeWhile_eq_dropWhile]
          exact List.takeWhile_append_dropWhile (fun ch => !isLineTerm ch) (c :: r)
        rw [hrest] at hfull
        exact hfull

theorem flattenUnits_cons (line : List Char) (nl : Bool)
    (rest : List (List Char × Bool)) :
    flattenUnits ((line, nl) :: rest) =
      (line ++ if nl then ['\n'] else []) ++ flattenUnits rest := rfl

theorem lineStrip_units :
    ∀ (units : List (List Char × Bool)) (fuel : Nat),
      (flattenUnits units).length ≤ fuel →
      units.all (fun u => u.1.all (fun c => !isLineTerm c)) = true →
      unitsNL units = true →
      lineStripGo fuel (flattenUnits units) =
        flattenUnits (units.filter (fun u => !containsSeq DELETED_MARKER.data u.1))
  | [], fuel, _, _, _ => by
    show lineStripGo fuel [] = flattenUnits []
    rw [lineStripGo_nil]
    rfl
  | (line, nl) :: rest, fuel, hfuel, hall, hnl => by
    have hall2 := hall
    rw [List.all_cons, Bool.and_eq_true] at hall2
    have hline : ∀ c ∈ line, (!isLineTerm c) = true := by
      have := hall2.1
      rw [List.all_eq_true] at this
      exact this
    have hrestall : rest.all (fun u => u.1.all (fun c => !isLineTerm c)) = true :=
      hall2.2
    cases nl with
    | true =>
      have hin : flattenUnits ((line, true) :: rest) =
          line ++ '\n' :: flattenUnits rest := by
        rw [flattenUnits_cons, if_pos rfl, List.append_assoc]
        rfl
      have hlen : (flattenUnits ((line, true) :: rest)).length =
          line.length + 1 + (flattenUnits rest).length := by
        rw [hin]
        simp [List.length_append]
        omega
      have hnl2 : unitsNL rest = true := by
        cases rest with
        | nil => rfl
        | cons v tl =>
          have hstep : unitsNL ((line, true) :: v :: tl) =
              (true && unitsNL (v :: tl)) := rfl
          rw [hstep, Bool.true_and] at hnl
          exact hnl
      rw [hlen] at hfuel
      rcases fuel with _ | f
      · omega
      · rw [hin, lineStripGo_succ (by simp) f]
        dsimp only
        rw [takeWhile_append_stop _ line '\n' (flattenUnits rest) hline (by decide)]
        rw [List.drop_left line ('\n' :: flattenUnits rest)]
        by_cases hcm : containsSeq DELETED_MARKER.data line = true
        · rw [if_pos hcm]
          show lineStripGo f (flattenUnits rest) = _
          rw [lineStrip_units rest f (by omega) hrestall hnl2]
          have hfilter : ((line, true) :: rest).filter
              (fun u => !containsSeq DELETED_MARKER.data u.1) =
              rest.filter (fun u => !containsSeq DELETED_MARKER.data u.1) := by
            rw [List.filter_cons]
            simp [hcm]
          rw [hfilter]
        · rw [if_neg hcm]
          show line ++ '\n' :: lineStripGo f (flattenUnits rest) = _
          rw [lineStrip_units rest f (by omega) hrestall hnl2]
          have hcm2 : containsSeq DELETED_MARKER.data line = false := by
            cases hx : containsSeq DELETED_MARKER.data line
            · rfl
            · exact absurd hx hcm
          have hfilter : ((line, true) :: rest).filter
              (fun u => !containsSeq DELETED_MARKER.data u.1) =
              (line, true) :: rest.filter
                (fun u => !containsSeq DELETED_MARKER.data u.1) := by
            rw [List.filter_cons]
            simp [hcm2]
          rw [hfilter, flattenUnits_cons, if_pos rfl, List.append_assoc]
          rfl
    | false =>
      have hrest0 : rest = [] := by
        cases rest with
        | nil => rfl
        | cons v tl =>
          have hstep : unitsNL ((line, false) :: v :: tl) =
              (false && unitsNL (v :: tl)) := rfl
          rw [hstep, Bool.false_and] at hnl
          cases hnl
      subst hrest0
      have hin : flattenUnits [(line, false)] = line := by
        rw [flattenUnits_cons, if_neg (by simp)]
        show (line ++ []) ++ flattenUnits [] = line
        simp [flattenUnits]
      rw [hin] at hfuel ⊢
      rcases hline0 : line with _ | ⟨c0, l0⟩
      · rw [lineStripGo_nil]
        decide
      · rw [hline0] at hfuel hline
        rcases fuel with _ | f
        · simp at hfuel
        · rw [lineStripGo_succ (by simp) f]
          dsimp only
          have htw : (c0 :: l0).takeWhile (fun ch => !isLineTerm ch) = c0 :: l0 :=
            List.takeWhile_eq_self_iff.mpr (fun a ha => by
              have := hline a ha
              simpa using this)
          rw [htw, List.drop_length]
          by_cases hcm : containsSeq DELETED_MARKER.data (c0 :: l0) = true
          · rw [if_pos hcm]
            show ([] : List Char) = _
            rw [List.filter_cons]
            simp [hcm, flattenUnits]
          · rw [if_neg hcm]
            show c0 :: l0 = _
            have hcm2 : containsSeq DELETED_MARKER.data (c0 :: l0) = false := by
              cases hx : containsSeq DELETED_MARKER.data (c0 :: l0)
              · rfl
              · exact absurd hx hcm
            rw [List.filter_cons]
            simp [hcm2, flattenUnits]

/-- C6 counterexample: three single-sentinel-occurrence inputs on which the
claimed behaviour fails.  (1) A JSON document with an empty-string key
(`\x7b"":\x7d` remains: the regex key group requires a non-empty key) and
(2) one whose key contains an escaped quote (the key group matches the
`"b":` inside the escaped key `a\"b`, leaving `\x7b"a\\x7d`) both strip to
structurally invalid JSON, refuting the validity promise.  (3) In a
line-oriented format a sentinel line terminated by a carriage-return pair
keeps its whole terminator (the regex's optional newline cannot consume a
carriage return), refuting "removes the full line together with its
newline" for such line endings. -/
theorem claim_C6_counterexample :
    (deleteMarker .json c6BadInput = .ok c6BadOutput ∧
      jsonParse c6BadOutput = none) ∧
    (deleteMarker .json ("\x7b\"a\\\"b\":\"" ++ DELETED_MARKER ++ "\"\x7d") =
        .ok "\x7b\"a\\\x7d" ∧
      jsonParse "\x7b\"a\\\x7d" = none) ∧
    deleteMarker .yaml ("k: " ++ DELETED_MARKER ++ "\r\nb: 2") =
      .ok "\r\nb: 2" := ⟨⟨rfl, rfl⟩, ⟨rfl, rfl⟩, rfl⟩

/-- C6 (amended): (1) on a plaintext with zero sentinel occurrences the
stripping pass is the identity for every non-binary format; (2) for the
line-oriented formats, on any text decomposed into terminator-free lines
separated by plain newlines (each line except possibly the last carrying
its newline) the pass removes exactly the lines containing the sentinel,
with their newlines — under carriage-return line endings the terminator
instead survives, see the counterexample; (3) for the JSON format, on
three representative single-occurrence documents (the amended claim is
deliberately concrete here: the validity promise is refuted in general by
the counterexample's empty-string-key and escaped-quote-key documents):
removing a middle array element collapses the two adjacent commas to one,
removing a sole key/value pair leaves an empty object, and removing a
middle pair keeps one separating comma — each yielding structurally valid
JSON. -/
theorem claim_C6_strip (fmt : SopsFormat) (hb : fmt ≠ .binary) (s : String)
    (hno : containsSeq DELETED_MARKER.data s.data = false)
    (fmt2 : SopsFormat) (hb2 : fmt2 ≠ .binary) (hj2 : fmt2 ≠ .json)
    (units : List (List Char × Bool))
    (hterm : units.all (fun u => u.1.all (fun c => !isLineTerm c)) = true)
    (hnl : unitsNL units = true) :
    deleteMarker fmt s = .ok s ∧
    deleteMarker fmt2 (String.mk (flattenUnits units)) =
      .ok (String.mk (flattenUnits
        (units.filter (fun u => !containsSeq DELETED_MARKER.data u.1)))) ∧
    deleteMarker .json ("[\"a\",\"" ++ DELETED_MARKER ++ "\",\"b\"]") =
      .ok "[\"a\",\"b\"]" ∧
    deleteMarker .json ("\x7b\"k\":\"" ++ DELETED_MARKER ++ "\"\x7d") =
      .ok "\x7b\x7d" ∧
    deleteMarker .json ("\x7b\"a\":1,\"k\":\"" ++ DELETED_MARKER ++ "\",\"b\":2\x7d") =
      .ok "\x7b\"a\":1,\"b\":2\x7d" ∧
    (jsonParse "[\"a\",\"b\"]").isSome = true ∧
    (jsonParse "\x7b\x7d").isSome = true ∧
    (jsonParse "\x7b\"a\":1,\"b\":2\x7d").isSome = true := by
  refine ⟨?_, ?_, rfl, rfl, rfl, rfl, rfl, rfl⟩
  · rcases s with ⟨sd⟩
    cases fmt with
    | binary => exact absurd rfl hb
    | json =>
      show Except.ok (String.mk (jsonStripGo sd.length sd)) = Except.ok (String.mk sd)
      rw [jsonStripGo_id sd.length sd hno]
    | yaml =>
      show Except.ok (String.mk (lineStripGo sd.length sd)) = Except.ok (String.mk sd)
      rw [lineStripGo_id sd.length sd hno]
    | ini =>
      show Except.ok (String.mk (lineStripGo sd.length sd)) = Except.ok (String.mk sd)
      rw [lineStripGo_id sd.length sd hno]
    | env =>
      show Except.ok (String.mk (lineStripGo sd.length sd)) = Except.ok (String.mk sd)
      rw [lineStripGo_id sd.length sd hno]
  · cases fmt2 with
    | binary => exact absurd rfl hb2
    | json => exact absurd rfl hj2
    | yaml =>
      show Except.ok (String.mk (lineStripGo (flattenUnits units).length
        (flattenUnits units))) = _
      rw [lineStrip_units units (flattenUnits units).length (le_refl _) hterm hnl]
    | ini =>
      show Except.ok (String.mk (lineStripGo (flattenUnits units).length
        (flattenUnits units))) = _
      rw [lineStrip_units units (flattenUnits units).length (le_refl _) hterm hnl]
    | env =>
      show Except.ok (String.mk (lineStripGo (flattenUnits units).length
        (flattenUnits units))) = _
      rw [lineStrip_units units (flattenUnits units).length (le_refl _) hterm hnl]

theorem claim_C6_strip_witness :
    deleteMarker .yaml "a: b" = .ok "a: b" ∧
    deleteMarker .yaml (String.mk (flattenUnits
        [("k1: v1".data, true), (("k2: " ++ DELETED_MARKER).data, true),
         ("k3: v3".data, false)])) =
      .ok (String.mk (flattenUnits
        ([("k1: v1".data, true), (("k2: " ++ DELETED_MARKER).data, true),
          ("k3: v3".data, false)].filter
          (fun u => !containsSeq DELETED_MARKER.data u.1)))) ∧
    deleteMarker .json ("[\"a\",\"" ++ DELETED_MARKER ++ "\",\"b\"]") =
      .ok "[\"a\",\"b\"]" ∧
    deleteMarker .json ("\x7b\"k\":\"" ++ DELETED_MARKER ++ "\"\x7d") =
      .ok "\x7b\x7d" ∧
    deleteMarker .json ("\x7b\"a\":1,\"k\":\"" ++ DELETED_MARKER ++ "\",\"b\":2\x7d") =
      .ok "\x7b\"a\":1,\"b\":2\x7d" ∧
    (jsonParse "[\"a\",\"b\"]").isSome = true ∧
    (jsonParse "\x7b\x7d").isSome = true ∧
    (jsonParse "\x7b\"a\":1,\"b\":2\x7d").isSome = true :=
  claim_C6_strip .yaml (by decide) "a: b" (by decide) .yaml (by decide) (by decide)
    [("k1: v1".data, true), (("k2: " ++ DELETED_MARKER).data, true),
     ("k3: v3".data, false)] (by decide) (by decide)
